import Mathlib

/-!
# Genji: stream pipeline and transactional catalog

A shallow embedding of `document/stream/stream.go` (package `stream`) and of the
catalog operations exercised by `database/transaction_test.go`.

Go code with side effects is embedded by explicit state passing: a Go function that
returns `T` becomes a function `ω → T × ω`, where `ω` is the type of everything the
program can reach and mutate (the state of the callbacks, of the closures, of the
sources).  A Go `error` is an `Option GoError` (`none` is `nil`); a pointer that may be
`nil` is an `Option`.  A `*expr.Environment` argument is represented by the content it
points to at the time of the call.
-/

namespace Genji

/-! ## Errors -/

/-- Go error values.  The sentinels are package level variables built with `errors.New`
and compared by identity; every other error is `other`. -/
inductive GoError where
  | ErrStreamClosed
  | ErrTableNotFound
  | ErrTableAlreadyExists
  | ErrIndexNotFound
  | ErrIndexAlreadyExists
  | other (msg : String)
  deriving DecidableEq, Repr

/-! ## Package `expr` (interfaces used by package `stream`) -/

/-- Modelled from the spec: `expr.Environment` (package `sql/query/expr` is not part of the
sources at hand).  A scope with an optional current value and an optional reference to an
outer scope. -/
inductive Environment (V : Type) where
  | mk (current : Option V) (Outer : Option (Environment V))

namespace Environment

variable {V : Type}

/-- Content of the current value slot of this scope. -/
def current : Environment V → Option V
  | mk c _ => c

/-- The field `Outer` of the scope. -/
def Outer : Environment V → Option (Environment V)
  | mk _ o => o

/-- The zero value of `expr.Environment` (what `var newEnv expr.Environment` declares). -/
def zero : Environment V := mk none none

/-- Modelled from the spec: `(*Environment).SetCurrentValue`, stores the value in the
current value slot and leaves the outer reference alone. -/
def SetCurrentValue (e : Environment V) (v : V) : Environment V :=
  mk (some v) e.Outer

/-- Assignment `e.Outer = env`. -/
def setOuter (e : Environment V) (env : Option (Environment V)) : Environment V :=
  mk e.current env

/-- Modelled from the spec: `(*Environment).GetCurrentValue`, the current value of the
nearest scope that has one, walking outward; `none` stands for the result `(_, false)`. -/
def GetCurrentValue : Environment V → Option V
  | mk (some v) _ => some v
  | mk none none => none
  | mk none (some o) => GetCurrentValue o

end Environment

/-- Modelled from the spec: `expr.Expr`, an opaque evaluable expression.  `Eval` returns a
Go pair `(document.Value, error)`. -/
structure Expr (V : Type) where
  Eval : Option (Environment V) → V × Option GoError

/-! ## Package `stream` -/

namespace stream

variable {ω σ V : Type}

/-- Go type `func(env *expr.Environment) error`. -/
abbrev Callback (ω V : Type) := Option (Environment V) → ω → Option GoError × ω

/-- Interface `Iterator`: its only method `Iterate(fn) error`. -/
abbrev Iterator (ω V : Type) := Callback ω V → ω → Option GoError × ω

/-- Go type `func(env *expr.Environment) (*expr.Environment, error)`, what an operator
returns. -/
abbrev OpFn (ω V : Type) :=
  Option (Environment V) → ω → (Option (Environment V) × Option GoError) × ω

/-- Go type `Operator`, a `func()` that returns an `OpFn`. -/
abbrev Operator (ω V : Type) := ω → OpFn ω V × ω

/-- Go struct `Stream`; both fields may be `nil`. -/
structure Stream (ω V : Type) where
  it : Option (Iterator ω V)
  op : Option (Operator ω V)

/-- Go `New`. -/
def New (it : Option (Iterator ω V)) : Stream ω V :=
  { it := it, op := none }

/-- The function literal that `Stream.Iterate` hands to the underlying iterator. -/
def Stream.Iterate.func1 (opFn : OpFn ω V) (fn : Callback ω V) : Callback ω V :=
  fun env w =>
    match opFn env w with
    | ((_, some err), w1) => (some err, w1)
    | ((env1, none), w1) => fn env1 w1

/-- Go `Stream.Iterate`. -/
def Stream.Iterate (s : Stream ω V) (fn : Callback ω V) : ω → Option GoError × ω :=
  fun w =>
    match s.it, s.op with
    | none, _ => (none, w)
    | some it, none => it fn w
    | some it, some op =>
      match op w with
      | (opFn, w1) =>
        match it (Stream.Iterate.func1 opFn fn) w1 with
        | (err, w2) =>
          if err ≠ some GoError.ErrStreamClosed then (err, w2) else (none, w2)

/-- Go `Stream.Pipe`: the receiver, as an `Iterator`, becomes the source of the new
stream. -/
def Stream.Pipe (s : Stream ω V) (op : Option (Operator ω V)) : Stream ω V :=
  { it := some s.Iterate, op := op }

/-- A source backed by a finite list: it passes the elements to the callback in order,
stops at the first error the callback returns, and returns that error. -/
def listIterator (xs : List (Option (Environment V))) : Iterator ω V :=
  fun fn w =>
    match xs with
    | [] => (none, w)
    | x :: rest =>
      match fn x w with
      | (some err, w1) => (some err, w1)
      | (none, w1) => listIterator rest fn w1

/-! ### Observation of a run

The callbacks handed to a stream are observed through a log of events that they alone
write: the callbacks act on a state `σ` of their own and the log is kept beside it. -/

/-- One observable step of a run. -/
inductive Event (V : Type) where
  /-- An operator factory was invoked; `id` is the number of events logged before. -/
  | factory (id : Nat)
  /-- The closure returned by the factory invocation `id` was applied to `arg` and returned
  `(res, err)`. -/
  | closure (id : Nat) (arg res : Option (Environment V)) (err : Option GoError)
  /-- The callback given to `Iterate` was applied to `arg` and returned `err`. -/
  | visit (arg : Option (Environment V)) (err : Option GoError)

/-- The error returned by the call an event records (`none` for a factory call). -/
def Event.err : Event V → Option GoError
  | .factory _ => none
  | .closure _ _ _ e => e
  | .visit _ e => e

/-- Arguments of the `visit` calls of a log, oldest first. -/
def visitArgs : List (Event V) → List (Option (Environment V))
  | [] => []
  | .visit a _ :: l => a :: visitArgs l
  | _ :: l => visitArgs l

/-- Errors returned by the `visit` calls of a log, oldest first. -/
def visitErrs : List (Event V) → List (Option GoError)
  | [] => []
  | .visit _ e :: l => e :: visitErrs l
  | _ :: l => visitErrs l

/-- Arguments of the closure calls of a log, oldest first. -/
def closureArgs : List (Event V) → List (Option (Environment V))
  | [] => []
  | .closure _ a _ _ :: l => a :: closureArgs l
  | _ :: l => closureArgs l

/-- Identifiers of the factory invocations of a log, oldest first. -/
def factoryIds : List (Event V) → List Nat
  | [] => []
  | .factory i :: l => i :: factoryIds l
  | _ :: l => factoryIds l

/-- Identifiers of the factory invocation whose closure served each closure call. -/
def closureIds : List (Event V) → List Nat
  | [] => []
  | .closure i _ _ _ :: l => i :: closureIds l
  | _ :: l => closureIds l

/-- A callback on `σ`, observed: every call is logged with its argument and result. -/
def traceVisit (fn : Callback σ V) : Callback (σ × List (Event V)) V :=
  fun env w =>
    match fn env w.1 with
    | (err, w1) => (err, (w1, w.2 ++ [Event.visit env err]))

/-- An operator closure on `σ`, observed under the identifier `id`. -/
def traceOpFn (id : Nat) (f : OpFn σ V) : OpFn (σ × List (Event V)) V :=
  fun env w =>
    match f env w.1 with
    | ((res, err), w1) => ((res, err), (w1, w.2 ++ [Event.closure id env res err]))

/-- An operator on `σ`, observed: the factory call is logged, and so is every call of the
closure it returns. -/
def traceOp (op : Operator σ V) : Operator (σ × List (Event V)) V :=
  fun w =>
    match op w.1 with
    | (f, w1) => (traceOpFn w.2.length f, (w1, w.2 ++ [Event.factory w.2.length]))

/-- The stream `s.Pipe(op_1). ... .Pipe(op_n)`. -/
def pipeAll (s : Stream ω V) (ops : List (Operator ω V)) : Stream ω V :=
  ops.foldl (fun t op => t.Pipe (some op)) s

/-! ### Predicates on logs -/

/-- Results of the closure calls of a log, oldest first. -/
def closureRes : List (Event V) → List (Option (Environment V))
  | [] => []
  | .closure _ _ r _ :: l => r :: closureRes l
  | _ :: l => closureRes l

/-- Logs that the loop of a list source can write when its callback is the function
literal of `Iterate` built from the closure `f` (observed as `id`) and the observed
`visit` callback `v`; the second index is the error the loop returns. -/
inductive LoopShape (id : Nat) (f : OpFn σ V) (v : Callback σ V) :
    List (Option (Environment V)) → Option GoError → List (Event V) → Prop
  | done : LoopShape id f v [] none []
  | opFail (x : Option (Environment V)) (xs : List (Option (Environment V))) (w : σ)
      (e : GoError) (h : (f x w).1.2 = some e) :
      LoopShape id f v (x :: xs) (some e) [Event.closure id x (f x w).1.1 (some e)]
  | visitFail (x : Option (Environment V)) (xs : List (Option (Environment V))) (w s : σ)
      (e : GoError) (h : (f x w).1.2 = none) (hv : (v (f x w).1.1 s).1 = some e) :
      LoopShape id f v (x :: xs) (some e)
        [Event.closure id x (f x w).1.1 none, Event.visit (f x w).1.1 (some e)]
  | step (x : Option (Environment V)) (xs : List (Option (Environment V))) (w : σ)
      (r : Option GoError) (rest : List (Event V)) (h : (f x w).1.2 = none)
      (hrest : LoopShape id f v xs r rest) :
      LoopShape id f v (x :: xs) r
        (Event.closure id x (f x w).1.1 none :: Event.visit (f x w).1.1 none :: rest)

/-- No call recorded in the log returned an error. -/
def ErrFree (evs : List (Event V)) : Prop := ∀ ev ∈ evs, ev.err = none

/-- Log written by a callback that returned `r`: either `r` is nil and no recorded call
failed, or the last recorded call, and no other, failed, with the error `r`. -/
def CallLog (r : Option GoError) (evs : List (Event V)) : Prop :=
  (r = none ∧ ErrFree evs) ∨
    ∃ init last, evs = init ++ [last] ∧ ErrFree init ∧ last.err = r ∧ r ≠ none

/-- Log written by an `Iterate` that returned `r`: as `CallLog`, except that the failing
last call may have returned the sentinel while `r` is nil. -/
def IterLog (r : Option GoError) (evs : List (Event V)) : Prop :=
  (r = none ∧ ErrFree evs) ∨
    ∃ init last e, evs = init ++ [last] ∧ ErrFree init ∧ last.err = some e ∧
      (r = some e ∨ (e = GoError.ErrStreamClosed ∧ r = none))

/-- A callback that only appends to the log, a `CallLog` of its result. -/
def GoodCallback (fn : Callback (σ × List (Event V)) V) : Prop :=
  ∀ env w l, ∃ evs, (fn env (w, l)).2.2 = l ++ evs ∧ CallLog (fn env (w, l)).1 evs

/-- An iterator that, driven by a good callback, only appends to the log, an `IterLog` of
its result. -/
def GoodIterator (it : Iterator (σ × List (Event V)) V) : Prop :=
  ∀ fn, GoodCallback fn → ∀ w l, ∃ evs, (it fn (w, l)).2.2 = l ++ evs ∧ IterLog (it fn (w, l)).1 evs

/-- A log in which calls of the closure `id` and calls of `visit` alternate as `Iterate`
prescribes: each closure call that returned a nil error is directly followed by the
`visit` call on the environment it returned, a `visit` call occurs nowhere else, and a
call that returned an error, of the closure or of `visit`, is the last entry. -/
def Alternates (id : Nat) : List (Event V) → Prop
  | [] => True
  | [Event.closure i _ _ (some _)] => i = id
  | [Event.closure i _ y none, Event.visit y1 (some _)] => i = id ∧ y1 = y
  | Event.closure i _ y none :: Event.visit y1 none :: rest =>
    i = id ∧ y1 = y ∧ Alternates id rest
  | _ => False

/-- What is asked of the callback that a piped stream hands to its source, observed: it
applies the closure `f` to its argument, once; if the closure returns an error it returns
that error without calling `visit`; otherwise it calls `visit`, once, on the environment
the closure returned, and returns what `visit` returns. -/
def observedStep (id : Nat) (f : OpFn σ V) (visit : Callback σ V) :
    Callback (σ × List (Event V)) V :=
  fun env w =>
    match f env w.1 with
    | ((res, some e), u) => (some e, (u, w.2 ++ [Event.closure id env res (some e)]))
    | ((res, none), u) =>
      match visit res u with
      | (r, u1) => (r, (u1, w.2 ++ [Event.closure id env res none, Event.visit res r]))

/-- A callback that never fails and, at each call, only appends to the log, with exactly
one `visit` call among what it appends, on `g` of its argument. -/
def Emits (g : Option (Environment V) → Option (Environment V))
    (fn : Callback (σ × List (Event V)) V) : Prop :=
  ∀ env w l, (fn env (w, l)).1 = none ∧
    ∃ evs, (fn env (w, l)).2.2 = l ++ evs ∧ visitArgs evs = [g env]

/-- An iterator that hands the elements of `ys`, in order, to such a callback and returns
nil. -/
def Produces (it : Iterator (σ × List (Event V)) V) (ys : List (Option (Environment V))) :
    Prop :=
  ∀ g fn, Emits g fn → ∀ w l, (it fn (w, l)).1 = none ∧
    ∃ evs, (it fn (w, l)).2.2 = l ++ evs ∧ visitArgs evs = ys.map g

/-! ### Variables captured by closures, and `Map`

A variable declared in the body of an operator and captured by the closure it returns
is a new variable at every call of the operator.  Such variables live in a store,
beside the state `ext` of everything else; each declaration takes the next free
address. -/

/-- The reachable state: `ext`, and the store `vars` of the variables captured by
operator closures, of which the addresses below `next` are in use. -/
structure World (σ C : Type) where
  ext : σ
  next : Nat
  vars : Nat → C

/-- Declaration of a captured variable with initial content `init`; the variable is at
the address `w.next`. -/
def World.alloc {C : Type} (w : World σ C) (init : C) : World σ C :=
  { w with next := w.next + 1, vars := Function.update w.vars w.next init }

/-- In place update of the variable at address `a`. -/
def World.modify {C : Type} (w : World σ C) (a : Nat) (f : C → C) : World σ C :=
  { w with vars := Function.update w.vars a (f (w.vars a)) }

/-- A callback on `σ` run in a world: it cannot reach the captured variables. -/
def liftExt {C : Type} (fn : Callback σ V) : Callback (World σ C) V :=
  fun env w =>
    match fn env w.ext with
    | (err, s) => (err, { w with ext := s })

/-- Go struct `MapOperator`. -/
structure MapOperator (V : Type) where
  E : Expr V

/-- Go `(*MapOperator).Operator`: declares `newEnv` and returns the closure that
evaluates `m.E`, overwrites the two fields of `newEnv` and returns `newEnv` (a pointer
to it in Go, its content here). -/
def MapOperator.Operator (m : MapOperator V) : Operator (World σ (Environment V)) V :=
  fun w =>
    (fun env w1 =>
      match m.E.Eval env with
      | (_, some err) => ((none, some err), w1)
      | (v, none) =>
        let w2 := w1.modify w.next (fun newEnv => newEnv.SetCurrentValue v)
        let w3 := w2.modify w.next (fun newEnv => newEnv.setOuter env)
        ((some (w3.vars w.next), none), w3),
     w.alloc Environment.zero)

/-- Go `Map`. -/
def Map (e : Expr V) : Operator (World σ (Environment V)) V :=
  (MapOperator.mk e).Operator

/-- An operator of the form `func() { x := init; return func(env) { ... } }` whose
closure reads and writes nothing but its captured variable `x`: `body env x` is the pair
returned by the closure and the new content of `x`. -/
def localVarOperator {C : Type} (init : C)
    (body : Option (Environment V) → C → (Option (Environment V) × Option GoError) × C) :
    Operator (World σ C) V :=
  fun w =>
    (fun env w1 =>
      ((body env (w1.vars w.next)).1, w1.modify w.next (fun x => (body env x).2)),
     w.alloc init)

/-- The body of the closure of `Map` as a function of the content of `newEnv`. -/
def mapBody (e : Expr V) (env : Option (Environment V)) (newEnv : Environment V) :
    (Option (Environment V) × Option GoError) × Environment V :=
  match e.Eval env with
  | (_, some err) => ((none, some err), newEnv)
  | (v, none) =>
    ((some ((newEnv.SetCurrentValue v).setOuter env), none),
      (newEnv.SetCurrentValue v).setOuter env)

/-- What the closure of `Map` returns, whatever the state it runs in. -/
def mapResult (e : Expr V) (env : Option (Environment V)) : Option (Environment V) :=
  match e.Eval env with
  | (_, some _) => none
  | (v, none) => some (Environment.mk (some v) env)

/-! ### Relating two runs of one stream -/

/-- Two worlds that agree, up to the shift `d` of the addresses, on the captured
variables declared from the address `n0` on. -/
def Shifted {C : Type} (n0 d : Nat) (w w1 : World σ C) : Prop :=
  w1.next = w.next + d ∧ n0 ≤ w.next ∧
    ∀ i, n0 ≤ i → i < w.next → w1.vars (i + d) = w.vars i

/-- Two observed callbacks that, run in shifted worlds where at least `m` addresses are in
use, return the same error, write the same log, leave shifted worlds and release no
address. -/
def SameCallback {C : Type} (n0 d m : Nat)
    (fn fn1 : Callback (World σ C × List (Event V)) V) : Prop :=
  ∀ env w w1 l, Shifted n0 d w w1 → m ≤ w.next →
    (fn env (w, l)).1 = (fn1 env (w1, l)).1 ∧
    (fn env (w, l)).2.2 = (fn1 env (w1, l)).2.2 ∧
    Shifted n0 d (fn env (w, l)).2.1 (fn1 env (w1, l)).2.1 ∧
    w.next ≤ (fn env (w, l)).2.1.next

/-- An iterator that, driven in shifted worlds by callbacks that are the same, returns the
same error, writes the same log, leaves shifted worlds and releases no address. -/
def SameRuns {C : Type} (n0 d : Nat) (it : Iterator (World σ C × List (Event V)) V) : Prop :=
  ∀ m fn fn1, SameCallback n0 d m fn fn1 →
    ∀ w w1 l, Shifted n0 d w w1 → m ≤ w.next →
      (it fn (w, l)).1 = (it fn1 (w1, l)).1 ∧
      (it fn (w, l)).2.2 = (it fn1 (w1, l)).2.2 ∧
      Shifted n0 d (it fn (w, l)).2.1 (it fn1 (w1, l)).2.1 ∧
      w.next ≤ (it fn (w, l)).2.1.next

/-! ### Sample inputs -/

/-- A source of three environments with the current values 1, 2 and 3. -/
def sample123 : List (Option (Environment Nat)) :=
  [some (Environment.mk (some 1) none), some (Environment.mk (some 2) none),
    some (Environment.mk (some 3) none)]

/-- Whether the current value slot of the environment holds `n`. -/
def holds (n : Nat) : Option (Environment Nat) → Bool
  | some (Environment.mk (some m) _) => m == n
  | _ => false

/-- The operator whose closure passes every environment on, unchanged. -/
def passOp : Operator Unit Nat :=
  fun u => (fun env u1 => ((env, none), u1), u)

/-- A filter: its closure passes on the environments whose current value is 2 and returns
a nil environment, with a nil error, for the others. -/
def keep2Op : Operator Unit Nat :=
  fun u => (fun env u1 => (if holds 2 env then (env, none) else (none, none), u1), u)

/-- An operator whose closure fails on the environments whose current value is 2. -/
def failOn2Op : Operator Unit Nat :=
  fun u =>
    (fun env u1 => (if holds 2 env then (none, some (GoError.other "boom")) else (env, none), u1),
      u)

/-- A `visit` that always returns nil. -/
def okVisit : Callback Unit Nat :=
  fun _ u => (none, u)

/-- A `visit` that always returns the sentinel. -/
def closedVisit : Callback Unit Nat :=
  fun _ u => (some GoError.ErrStreamClosed, u)

/-- A `visit` that counts its calls and returns the sentinel at the second one. -/
def closeAtSecondVisit : Callback Nat Nat :=
  fun _ n => (if n = 1 then some GoError.ErrStreamClosed else none, n + 1)

/-- The operator on a counter state whose closure passes every non-nil environment on. -/
def passOpNat : Operator Nat Nat :=
  fun n => (fun env n1 => ((some (env.getD Environment.zero), none), n1), n)

/-- An expression that evaluates, without error, to ten times the current value of the
environment (0 when there is none). -/
def tenTimes : Expr Nat :=
  { Eval := fun env =>
      (match env with
        | some (Environment.mk (some n) _) => 10 * n
        | _ => 0, none) }

/-- A world with no captured variable in use. -/
def emptyWorld : World Unit (Environment Nat) :=
  { ext := (), next := 0, vars := fun _ => Environment.zero }

/-- A source of four environments with the current values 1, 2, 3 and 4. -/
def sample1234 : List (Option (Environment Nat)) :=
  [some (Environment.mk (some 1) none), some (Environment.mk (some 2) none),
    some (Environment.mk (some 3) none), some (Environment.mk (some 4) none)]

/-- A limit style filter: its closure returns a nil environment, with a nil error, for the
environments whose current value is 1, returns the sentinel for those whose current value
is 3, and passes the others on. -/
def skip1CloseAt3Op : Operator Unit Nat :=
  fun u =>
    (fun env u1 =>
      (if holds 1 env then (none, none)
        else if holds 3 env then (none, some GoError.ErrStreamClosed)
        else (env, none), u1),
      u)

/-- An expression that fails on every environment. -/
def failingExpr : Expr Nat :=
  { Eval := fun _ => (0, some (GoError.other "no such field")) }

/-- A source that calls nothing and returns an error of its own. -/
def boomSource : Iterator Unit Nat :=
  fun _ u => (some (GoError.other "boom"), u)

/-- Adds `k` to the current value of an environment (a nil environment counts as 0). -/
def bump (k : Nat) : Option (Environment Nat) → Option (Environment Nat)
  | some (Environment.mk (some n) o) => some (Environment.mk (some (n + k)) o)
  | _ => some (Environment.mk (some k) none)

/-- Multiplies the current value of an environment by `k` (a nil environment counts as 0). -/
def scale (k : Nat) : Option (Environment Nat) → Option (Environment Nat)
  | some (Environment.mk (some n) o) => some (Environment.mk (some (n * k)) o)
  | _ => some (Environment.mk (some 0) none)

/-- The operator whose closure computes `bump k`. -/
def bumpOp (k : Nat) : Operator Unit Nat :=
  fun u => (fun env u1 => ((bump k env, none), u1), u)

/-- The operator whose closure computes `scale k`. -/
def scaleOp (k : Nat) : Operator Unit Nat :=
  fun u => (fun env u1 => ((scale k env, none), u1), u)

end stream

/-! ## Package `database`: the catalog seen by a transaction

The sources at hand hold the tests of the catalog operations only
(`database/transaction_test.go`); the operations are modelled from the specification. -/

namespace database

/-- Modelled from the spec: `FieldConstraint`, a field path, a value type and two flags. -/
structure FieldConstraint where
  Path : String
  Typ : Nat
  IsNotNull : Bool
  IsPrimaryKey : Bool
  deriving DecidableEq, Repr

/-- Modelled from the spec: `TableInfo`, the stored name of the table and the ordered list
of its field constraints. -/
structure TableInfo where
  tableName : String
  FieldConstraints : List FieldConstraint
  deriving DecidableEq, Repr

/-- Modelled from the spec: `IndexConfig`. -/
structure IndexConfig where
  TableName : String
  IndexName : String
  Path : String
  Unique : Bool
  deriving DecidableEq, Repr

/-- Modelled from the spec: the catalog view of a `Transaction`, the registered tables
and indexes. -/
structure Transaction where
  tables : List TableInfo
  indexes : List IndexConfig
  deriving DecidableEq, Repr

/-- The reserved beginning of the names of system tables (`__genji_`). -/
def reservedStart : List Char := "__genji_".toList

/-- Modelled from the spec: the naming policy of `CreateTable`, whether a table name
begins with the reserved characters. -/
def isReserved (name : String) : Bool :=
  reservedStart.isPrefixOf name.toList

/-- The registered table of that name, if any. -/
def Transaction.findTable (tx : Transaction) (name : String) : Option TableInfo :=
  tx.tables.find? (fun ti => ti.tableName = name)

/-- Modelled from the spec: `Transaction.GetTable`, fails with `ErrTableNotFound` if the
table is absent, otherwise returns the table, here its `TableInfo` (what `Info()` gives). -/
def Transaction.GetTable (tx : Transaction) (name : String) : Except GoError TableInfo :=
  match tx.findTable name with
  | none => .error GoError.ErrTableNotFound
  | some ti => .ok ti

/-- The field constraints of the `info` argument of `CreateTable`; a nil `info` has none. -/
def constraintsOf (info : Option TableInfo) : List FieldConstraint :=
  match info with
  | none => []
  | some ti => ti.FieldConstraints

/-- Modelled from the spec: `Transaction.CreateTable`, fails with `ErrTableAlreadyExists` if
the name is taken, fails with a naming policy error if the name begins with the reserved
characters, otherwise registers the `TableInfo` under that name (a nil `info` has no
constraints).  A failed call leaves the catalog as it was. -/
def Transaction.CreateTable (tx : Transaction) (name : String) (info : Option TableInfo) :
    Option GoError × Transaction :=
  if (tx.findTable name).isSome then
    (some GoError.ErrTableAlreadyExists, tx)
  else if isReserved name then
    (some (GoError.other "table name must not start with __genji_"), tx)
  else
    (none, { tx with tables := tx.tables ++
      [{ tableName := name, FieldConstraints := constraintsOf info }] })

/-- Modelled from the spec: `Transaction.ListIndexes`. -/
def Transaction.ListIndexes (tx : Transaction) : List IndexConfig :=
  tx.indexes

/-- Modelled from the spec: `Transaction.RenameTable`, fails with `ErrTableNotFound` if
`oldName` is absent; a new name that already names a table (the old name included) is
refused with `ErrTableAlreadyExists`, table names being unique; otherwise updates the
stored name of the table and rewrites the `TableName` of every index that referenced
`oldName`, leaving its other fields alone.  A failed call leaves the catalog as it was. -/
def Transaction.RenameTable (tx : Transaction) (oldName newName : String) :
    Option GoError × Transaction :=
  match tx.findTable oldName with
  | none => (some GoError.ErrTableNotFound, tx)
  | some _ =>
    if (tx.findTable newName).isSome then
      (some GoError.ErrTableAlreadyExists, tx)
    else
      (none,
        { tables := tx.tables.map (fun ti =>
            if ti.tableName = oldName then { ti with tableName := newName } else ti),
          indexes := tx.indexes.map (fun idx =>
            if idx.TableName = oldName then { idx with TableName := newName } else idx) })

/-! ### Schema evolution -/

/-- The invariant of a `TableInfo`: at most one field constraint is a primary key and no
field path occurs twice. -/
def TableInfo.valid (ti : TableInfo) : Prop :=
  (ti.FieldConstraints.filter (fun c => c.IsPrimaryKey)).length ≤ 1 ∧
    (ti.FieldConstraints.map (fun c => c.Path)).Nodup

/-- Modelled from the spec: `Transaction.AddField`, fails with `ErrTableNotFound` if the
table is absent, fails if a constraint already exists for the same path, fails if the
constraint is a primary key and the table already has one; otherwise appends the
constraint to the field constraints of the table.  A failed call leaves the catalog as it
was. -/
def Transaction.AddField (tx : Transaction) (tableName : String) (fc : FieldConstraint) :
    Option GoError × Transaction :=
  match tx.findTable tableName with
  | none => (some GoError.ErrTableNotFound, tx)
  | some ti =>
    if ti.FieldConstraints.any (fun c => c.Path = fc.Path) then
      (some (GoError.other "a constraint already exists for this path"), tx)
    else if fc.IsPrimaryKey && ti.FieldConstraints.any (fun c => c.IsPrimaryKey) then
      (some (GoError.other "the table already has a primary key"), tx)
    else
      (none,
        { tx with tables := tx.tables.map (fun t =>
            if t.tableName = tableName then
              { t with FieldConstraints := t.FieldConstraints ++ [fc] }
            else t) })

/-! ### Indexes

The documents and the index entries are reached through the storage engine; they are
passed beside the catalog.  The codec is an external collaborator, known by its contract
only. -/

/-- Modelled from the spec: the codec boundary.  `encode` is the canonical encoding under
which an index stores a value (a numeric value is encoded as a double whatever its declared
type), into byte sequences compared by `<`; the codec guarantees that the encoding
preserves the order of the values. -/
structure Codec (Val Enc : Type) [LT Val] [LT Enc] where
  encode : Val → Enc
  preservesOrder : ∀ a b : Val, a < b → encode a < encode b

/-- Modelled from the spec: a stored document, its record key (primary key) and its
fields. -/
structure Document (K Val : Type) where
  key : K
  fields : List (String × Val)

/-- The value of a document at a field path, if it has one. -/
def Document.get {K Val : Type} (d : Document K Val) (path : String) : Option Val :=
  (d.fields.find? (fun f => f.1 = path)).map (fun f => f.2)

/-- Modelled from the spec: what the transaction reaches through the storage engine, the
documents of each table in table order and the entries `(encoded value, record key)` of
each index in ascending order of encoded value. -/
structure EngineData (K Val Enc : Type) where
  documents : String → List (Document K Val)
  indexData : String → List (Enc × K)

/-- The registered index of that name, if any. -/
def Transaction.findIndex (tx : Transaction) (name : String) : Option IndexConfig :=
  tx.indexes.find? (fun cfg => cfg.IndexName = name)

/-- Ordered storage: the place of a new entry is after the entries whose encoded value is
not greater. -/
def placeEntry {K Enc : Type} [LinearOrder Enc] (e : Enc × K) :
    List (Enc × K) → List (Enc × K)
  | [] => [e]
  | x :: rest => if e.1 < x.1 then e :: x :: rest else x :: placeEntry e rest

/-- Modelled from the spec: insertion of an entry in an index.  A unique index does not
take a second entry under an encoded value it already holds (`none`); a non unique index
takes every entry. -/
def insertEntry {K Enc : Type} [LinearOrder Enc] (unique : Bool) (e : Enc × K)
    (idx : List (Enc × K)) : Option (List (Enc × K)) :=
  if unique && idx.any (fun x => decide (x.1 = e.1)) then none else some (placeEntry e idx)

/-- The scan of `ReIndex`: the documents in table order; a document with a value at the
path gets the entry `(encode value, key)`, a document without is skipped; the scan stops
with `none` at an entry that the index does not take. -/
def scanDocuments {K Val Enc : Type} [LinearOrder Enc] (unique : Bool) (encode : Val → Enc)
    (path : String) : List (Document K Val) → List (Enc × K) → Option (List (Enc × K))
  | [], idx => some idx
  | d :: rest, idx =>
    match d.get path with
    | none => scanDocuments unique encode path rest idx
    | some v =>
      match insertEntry unique (encode v, d.key) idx with
      | none => none
      | some idx1 => scanDocuments unique encode path rest idx1

/-- Modelled from the spec: the body of `ReIndex`, the scan of the documents of the table
from the cleared storage. -/
def buildIndex {K Val Enc : Type} [LinearOrder Enc] (unique : Bool) (encode : Val → Enc)
    (path : String) (docs : List (Document K Val)) : Option (List (Enc × K)) :=
  scanDocuments unique encode path docs []

/-- Modelled from the spec: `Transaction.ReIndex`, fails with `ErrIndexNotFound` if the
index is absent; otherwise clears the storage of the index and rebuilds it from the
documents of its table.  A rebuild that a unique index refuses fails, and a failed call
leaves the index as it was. -/
def Transaction.ReIndex {K Val Enc : Type} [LT Val] [LinearOrder Enc] (tx : Transaction)
    (codec : Codec Val Enc) (data : EngineData K Val Enc) (name : String) :
    Option GoError × EngineData K Val Enc :=
  match tx.findIndex name with
  | none => (some GoError.ErrIndexNotFound, data)
  | some cfg =>
    match buildIndex cfg.Unique codec.encode cfg.Path (data.documents cfg.TableName) with
    | none => (some (GoError.other "duplicate value in a unique index"), data)
    | some idx =>
      (none, { data with indexData := (Function.update data.indexData name idx) })

/-- Modelled from the spec: `Transaction.CreateIndex`, fails with `ErrIndexAlreadyExists`
if the name is taken, fails with `ErrTableNotFound` if the table does not exist;
otherwise registers the configuration and creates empty storage for the index, without
reading the table. -/
def Transaction.CreateIndex {K Val Enc : Type} (tx : Transaction)
    (data : EngineData K Val Enc) (cfg : IndexConfig) :
    Option GoError × Transaction × EngineData K Val Enc :=
  if (tx.findIndex cfg.IndexName).isSome then
    (some GoError.ErrIndexAlreadyExists, tx, data)
  else if (tx.findTable cfg.TableName).isNone then
    (some GoError.ErrTableNotFound, tx, data)
  else
    (none, { tx with indexes := tx.indexes ++ [cfg] },
      { data with indexData := Function.update data.indexData cfg.IndexName [] })

/-- The loop of an index traversal: calls `fn` on each entry in turn, with the flag that
tells whether the encoded value equals the pivot, and stops at the first error. -/
def ascend {K Enc ω : Type} [LinearOrder Enc] (pivot : Option Enc)
    (fn : Enc → K → Bool → ω → Option GoError × ω) :
    List (Enc × K) → ω → Option GoError × ω
  | [], w => (none, w)
  | e :: rest, w =>
    match fn e.1 e.2 (decide (pivot = some e.1)) w with
    | (some err, w1) => (some err, w1)
    | (none, w1) => ascend pivot fn rest w1

/-- Modelled from the spec: `Index.AscendGreaterOrEqual`, walks the entries in ascending
encoded order starting at the first entry not below the pivot; the empty pivot (`none`)
is below every entry. -/
def AscendGreaterOrEqual {K Enc ω : Type} [LinearOrder Enc] (entries : List (Enc × K))
    (pivot : Option Enc) (fn : Enc → K → Bool → ω → Option GoError × ω) :
    ω → Option GoError × ω :=
  ascend pivot fn (entries.dropWhile (fun e =>
    match pivot with
    | none => false
    | some p => decide (e.1 < p)))

/-- A traversal callback that records the entries it is given and never fails. -/
def collect {K Enc : Type} (v : Enc) (k : K) (_isEqual : Bool) (acc : List (Enc × K)) :
    Option GoError × List (Enc × K) :=
  (none, acc ++ [(v, k)])

/-- The entries that an index on `path` owes to the documents: one per document that has
a value at the path, in table order. -/
def expectedEntries {K Val Enc : Type} (encode : Val → Enc) (path : String)
    (docs : List (Document K Val)) : List (Enc × K) :=
  docs.filterMap (fun d => (d.get path).map (fun v => (encode v, d.key)))

/-! ### Sample catalogs -/

/-- The field constraints of the table of `TestTxTable/Rename`. -/
def sampleConstraints : List FieldConstraint :=
  [{ Path := "name", Typ := 1, IsNotNull := true, IsPrimaryKey := false },
   { Path := "age", Typ := 2, IsNotNull := false, IsPrimaryKey := true },
   { Path := "gender", Typ := 1, IsNotNull := false, IsPrimaryKey := false },
   { Path := "city", Typ := 1, IsNotNull := false, IsPrimaryKey := false }]

/-- The catalog of `TestTxTable/Rename` before the rename: the table `foo` and two
indexes on it. -/
def sampleTx : Transaction :=
  { tables := [{ tableName := "foo", FieldConstraints := sampleConstraints }],
    indexes :=
      [{ TableName := "foo", IndexName := "idx_gender", Path := "gender", Unique := false },
       { TableName := "foo", IndexName := "idx_city", Path := "city", Unique := true }] }

/-- The field added by `TestTxTable/Add field`. -/
def lastNameField : FieldConstraint :=
  { Path := "last_name", Typ := 1, IsNotNull := false, IsPrimaryKey := false }

/-- The second primary key of `TestTxTable/Add field`. -/
def foobarKeyField : FieldConstraint :=
  { Path := "foobar", Typ := 2, IsNotNull := false, IsPrimaryKey := true }

/-- The catalog of `TestTxReIndex`: the table `test` and the indexes `a` and `b` on it. -/
def reindexTx : Transaction :=
  { tables := [{ tableName := "test", FieldConstraints := [] }],
    indexes :=
      [{ TableName := "test", IndexName := "a", Path := "a", Unique := false },
       { TableName := "test", IndexName := "b", Path := "b", Unique := false }] }

/-- Documents of the table `test`, inserted out of order, with `b = 10 * a`; the third
has no field `a`. -/
def reindexData : EngineData Nat Nat Nat :=
  { documents := fun t =>
      if t = "test" then
        [{ key := 1, fields := [("a", 2), ("b", 20)] },
         { key := 2, fields := [("a", 0), ("b", 0)] },
         { key := 3, fields := [("b", 10)] },
         { key := 4, fields := [("a", 1), ("b", 10)] }]
      else [],
    indexData := fun _ => [] }

/-- A sample order preserving encoding of the naturals. -/
def sampleEncode (n : Nat) : Nat := 2 * n + 1

/-- The sample codec. -/
def sampleCodec : Codec Nat Nat :=
  { encode := sampleEncode
    preservesOrder := fun a b h => by unfold sampleEncode; omega }

/-- The catalog of `TestTxReIndex` with one more index, unique, on the field `b`. -/
def uniqueTx : Transaction :=
  { reindexTx with indexes := reindexTx.indexes ++
      [{ TableName := "test", IndexName := "ub", Path := "b", Unique := true }] }

/-- The catalog of a new database. -/
def emptyTx : Transaction :=
  { tables := [], indexes := [] }

end database


/-! # Theorems about package `stream` -/

namespace stream

/-! ## Basic facts about `Iterate` -/

section Basic

variable {ω σ V : Type}

theorem listIterator_nil (fn : Callback ω V) (w : ω) :
    listIterator [] fn w = (none, w) := rfl

theorem listIterator_cons_err (x : Option (Environment V)) (rest : List (Option (Environment V)))
    (fn : Callback ω V) (w : ω) (e : GoError) (h : (fn x w).1 = some e) :
    listIterator (x :: rest) fn w = (some e, (fn x w).2) := by
  rw [listIterator]
  split
  · next err w1 heq => rw [heq] at h; simp at h; simp [heq, h]
  · next w1 heq => rw [heq] at h; simp at h

theorem listIterator_cons_ok (x : Option (Environment V)) (rest : List (Option (Environment V)))
    (fn : Callback ω V) (w : ω) (h : (fn x w).1 = none) :
    listIterator (x :: rest) fn w = listIterator rest fn (fn x w).2 := by
  rw [listIterator]
  split
  · next err w1 heq => rw [heq] at h; simp at h
  · next w1 heq => simp [heq]

/-- What `Iterate` does on a stream that has a source and an operator. -/
theorem Iterate_piped (it : Iterator ω V) (op : Operator ω V) (fn : Callback ω V) (w : ω) :
    (Stream.mk (some it) (some op)).Iterate fn w =
      (if (it (Stream.Iterate.func1 (op w).1 fn) (op w).2).1 = some GoError.ErrStreamClosed
        then none else (it (Stream.Iterate.func1 (op w).1 fn) (op w).2).1,
       (it (Stream.Iterate.func1 (op w).1 fn) (op w).2).2) := by
  simp only [Stream.Iterate]
  split
  · next h => simp [h]
  · next h => simp only [ne_eq, not_not] at h; simp [h]

theorem Iterate_Pipe (s : Stream ω V) (op : Operator ω V) (fn : Callback ω V) (w : ω) :
    (s.Pipe (some op)).Iterate fn w =
      (if (s.Iterate (Stream.Iterate.func1 (op w).1 fn) (op w).2).1
            = some GoError.ErrStreamClosed
        then none else (s.Iterate (Stream.Iterate.func1 (op w).1 fn) (op w).2).1,
       (s.Iterate (Stream.Iterate.func1 (op w).1 fn) (op w).2).2) :=
  Iterate_piped s.Iterate op fn w

theorem Iterate_New (it : Iterator ω V) (fn : Callback ω V) (w : ω) :
    (New (some it)).Iterate fn w = it fn w := rfl

theorem func1_err (opFn : OpFn ω V) (fn : Callback ω V) (env : Option (Environment V)) (w : ω)
    (e : GoError) (h : (opFn env w).1.2 = some e) :
    Stream.Iterate.func1 opFn fn env w = (some e, (opFn env w).2) := by
  unfold Stream.Iterate.func1
  split
  · next a err w1 heq => rw [heq] at h; simp at h; simp [heq, h]
  · next a w1 heq => rw [heq] at h; simp at h

theorem func1_ok (opFn : OpFn ω V) (fn : Callback ω V) (env : Option (Environment V)) (w : ω)
    (h : (opFn env w).1.2 = none) :
    Stream.Iterate.func1 opFn fn env w = fn (opFn env w).1.1 (opFn env w).2 := by
  unfold Stream.Iterate.func1
  split
  · next a err w1 heq => rw [heq] at h; simp at h
  · next a w1 heq => simp [heq]

theorem traceVisit_eq (fn : Callback σ V) (env : Option (Environment V)) (w : σ)
    (l : List (Event V)) :
    traceVisit fn env (w, l) = ((fn env w).1, ((fn env w).2, l ++ [Event.visit env (fn env w).1])) :=
  rfl

theorem traceOpFn_eq (id : Nat) (f : OpFn σ V) (env : Option (Environment V)) (w : σ)
    (l : List (Event V)) :
    traceOpFn id f env (w, l) =
      ((f env w).1, ((f env w).2, l ++ [Event.closure id env (f env w).1.1 (f env w).1.2])) :=
  rfl

theorem traceOp_eq (op : Operator σ V) (w : σ) (l : List (Event V)) :
    traceOp op (w, l) = (traceOpFn l.length (op w).1, ((op w).2, l ++ [Event.factory l.length])) :=
  rfl

end Basic

/-! ## One operator over a list: the shape of the log -/

section OneStage

variable {σ V : Type}

theorem loop_shape (id : Nat) (f : OpFn σ V) (v : Callback σ V) :
    ∀ (xs : List (Option (Environment V))) (w : σ) (l : List (Event V)),
      ∃ evs,
        (listIterator xs (Stream.Iterate.func1 (traceOpFn id f) (traceVisit v)) (w, l)).2.2
            = l ++ evs ∧
        LoopShape id f v xs
          (listIterator xs (Stream.Iterate.func1 (traceOpFn id f) (traceVisit v)) (w, l)).1 evs := by
  intro xs
  induction xs with
  | nil =>
    intro w l
    exact ⟨[], by simp [listIterator_nil], by simpa [listIterator_nil] using LoopShape.done⟩
  | cons x xs ih =>
    intro w l
    cases hf : (f x w).1.2 with
    | some e =>
      have h1 : Stream.Iterate.func1 (traceOpFn id f) (traceVisit v) x (w, l)
          = (some e, ((f x w).2, l ++ [Event.closure id x (f x w).1.1 (some e)])) := by
        rw [func1_err _ _ _ _ e (by rw [traceOpFn_eq]; exact hf), traceOpFn_eq, hf]
      rw [listIterator_cons_err _ _ _ _ e (by rw [h1]), h1]
      exact ⟨_, rfl, LoopShape.opFail x xs w e hf⟩
    | none =>
      have h1 : Stream.Iterate.func1 (traceOpFn id f) (traceVisit v) x (w, l)
          = ((v (f x w).1.1 (f x w).2).1, ((v (f x w).1.1 (f x w).2).2,
              (l ++ [Event.closure id x (f x w).1.1 none])
                ++ [Event.visit (f x w).1.1 (v (f x w).1.1 (f x w).2).1])) := by
        rw [func1_ok _ _ _ _ (by rw [traceOpFn_eq]; exact hf), traceOpFn_eq, hf, traceVisit_eq]
      cases hv : (v (f x w).1.1 (f x w).2).1 with
      | some e =>
        rw [hv] at h1
        rw [listIterator_cons_err _ _ _ _ e (by rw [h1]), h1]
        exact ⟨_, by simp, LoopShape.visitFail x xs w (f x w).2 e hf hv⟩
      | none =>
        rw [hv] at h1
        rw [listIterator_cons_ok _ _ _ _ (by rw [h1]), h1]
        obtain ⟨evs, h2, h3⟩ := ih (v (f x w).1.1 (f x w).2).2
          ((l ++ [Event.closure id x (f x w).1.1 none]) ++ [Event.visit (f x w).1.1 none])
        exact ⟨_, by rw [h2]; simp, LoopShape.step x xs w _ evs hf h3⟩

/-- The run of `New(list).Pipe(op).Iterate(visit)`, observed: one factory event, then
the log of the loop; the sentinel returned by the loop becomes `nil`. -/
theorem one_stage_run (xs : List (Option (Environment V))) (op : Operator σ V)
    (v : Callback σ V) (w : σ) (l : List (Event V)) :
    ∃ r evs,
      (((New (some (listIterator xs))).Pipe (some (traceOp op))).Iterate (traceVisit v)
          (w, l)).2.2 = l ++ Event.factory l.length :: evs ∧
      LoopShape l.length (op w).1 v xs r evs ∧
      (((New (some (listIterator xs))).Pipe (some (traceOp op))).Iterate (traceVisit v)
          (w, l)).1 = if r = some GoError.ErrStreamClosed then none else r := by
  obtain ⟨evs, h1, h2⟩ := loop_shape l.length (op w).1 v xs (op w).2
    (l ++ [Event.factory l.length])
  refine ⟨_, evs, ?_, h2, ?_⟩
  · simp only [Iterate_Pipe, traceOp_eq, Iterate_New]
    rw [h1]; simp
  · simp only [Iterate_Pipe, traceOp_eq, Iterate_New]

end OneStage

/-! ## Any number of operators: where an error can sit in the log -/

section ManyStages

variable {σ V : Type}

theorem errFree_nil : ErrFree ([] : List (Event V)) := by
  intro ev h; cases h

theorem errFree_cons {ev : Event V} {evs : List (Event V)} (h1 : ev.err = none)
    (h2 : ErrFree evs) : ErrFree (ev :: evs) := by
  intro x hx
  rcases List.mem_cons.1 hx with rfl | hx
  · exact h1
  · exact h2 x hx

theorem errFree_append {l1 l2 : List (Event V)} (h1 : ErrFree l1) (h2 : ErrFree l2) :
    ErrFree (l1 ++ l2) := by
  intro x hx
  rcases List.mem_append.1 hx with hx | hx
  · exact h1 x hx
  · exact h2 x hx

/-- An element that is not in `init` and occurs in `init ++ [last]` is `last`, and nothing
follows it. -/
theorem split_last {α : Type} {pre post init : List α} {x last : α}
    (h : pre ++ x :: post = init ++ [last]) (hx : x ∉ init) : post = [] ∧ x = last := by
  rcases List.eq_nil_or_concat post with hp | ⟨post1, z, hp⟩
  · subst hp
    have h1 : pre ++ [x] = init ++ [last] := h
    have h2 := (List.append_inj' h1 rfl).2
    exact ⟨rfl, by simpa using h2⟩
  · exfalso
    subst hp
    have h1 : (pre ++ x :: post1) ++ [z] = init ++ [last] := by simpa using h
    have h2 : pre ++ x :: post1 = init := (List.append_inj' h1 rfl).1
    exact hx (by rw [← h2]; simp)

theorem goodCallback_traceVisit (v : Callback σ V) : GoodCallback (traceVisit v) := by
  intro env w l
  refine ⟨[Event.visit env (v env w).1], by rw [traceVisit_eq], ?_⟩
  rw [traceVisit_eq]
  cases h : (v env w).1 with
  | none => exact Or.inl ⟨rfl, errFree_cons rfl errFree_nil⟩
  | some e => exact Or.inr ⟨[], _, rfl, errFree_nil, rfl, by simp⟩

theorem goodCallback_func1 (id : Nat) (f : OpFn σ V) (fn : Callback (σ × List (Event V)) V)
    (hfn : GoodCallback fn) : GoodCallback (Stream.Iterate.func1 (traceOpFn id f) fn) := by
  intro env w l
  cases hf : (f env w).1.2 with
  | some e =>
    rw [func1_err _ _ _ _ e (by rw [traceOpFn_eq]; exact hf), traceOpFn_eq]
    exact ⟨[Event.closure id env (f env w).1.1 (f env w).1.2], rfl,
      Or.inr ⟨[], _, rfl, errFree_nil, hf, by simp⟩⟩
  | none =>
    rw [func1_ok _ _ _ _ (by rw [traceOpFn_eq]; exact hf), traceOpFn_eq]
    obtain ⟨evs, h1, h2⟩ := hfn (f env w).1.1 (f env w).2
      (l ++ [Event.closure id env (f env w).1.1 (f env w).1.2])
    refine ⟨Event.closure id env (f env w).1.1 (f env w).1.2 :: evs, by rw [h1]; simp, ?_⟩
    have hc : (Event.closure id env (f env w).1.1 (f env w).1.2).err = none := hf
    rcases h2 with ⟨h3, h4⟩ | ⟨init, last, h3, h4, h5, h6⟩
    · exact Or.inl ⟨h3, errFree_cons hc h4⟩
    · exact Or.inr ⟨_ :: init, last, by rw [h3]; rfl, errFree_cons hc h4, h5, h6⟩

theorem goodIterator_list (xs : List (Option (Environment V))) :
    GoodIterator (listIterator xs : Iterator (σ × List (Event V)) V) := by
  intro fn hfn
  induction xs with
  | nil =>
    intro w l
    exact ⟨[], by simp [listIterator_nil], Or.inl ⟨rfl, errFree_nil⟩⟩
  | cons x xs ih =>
    intro w l
    obtain ⟨evs1, h1, h2⟩ := hfn x w l
    cases hr : (fn x (w, l)).1 with
    | some e =>
      rw [listIterator_cons_err _ _ _ _ e hr]
      refine ⟨evs1, h1, ?_⟩
      rw [hr] at h2
      rcases h2 with ⟨h3, _⟩ | ⟨init, last, h3, h4, h5, _⟩
      · cases h3
      · exact Or.inr ⟨init, last, e, h3, h4, h5, Or.inl rfl⟩
    | none =>
      rw [listIterator_cons_ok _ _ _ _ hr]
      rw [hr] at h2
      have h3 : ErrFree evs1 := by
        rcases h2 with ⟨_, h3⟩ | ⟨_, _, _, _, _, h6⟩
        · exact h3
        · exact absurd rfl h6
      have hst : (fn x (w, l)).2 = ((fn x (w, l)).2.1, l ++ evs1) := by
        rw [← h1]
      rw [hst]
      obtain ⟨evs2, h4, h5⟩ := ih (fn x (w, l)).2.1 (l ++ evs1)
      refine ⟨evs1 ++ evs2, by rw [h4]; simp, ?_⟩
      rcases h5 with ⟨h6, h7⟩ | ⟨init, last, e, h6, h7, h8, h9⟩
      · exact Or.inl ⟨h6, errFree_append h3 h7⟩
      · exact Or.inr ⟨evs1 ++ init, last, e, by rw [h6]; simp, errFree_append h3 h7, h8, h9⟩

theorem goodIterator_piped (it : Iterator (σ × List (Event V)) V) (hit : GoodIterator it)
    (op : Operator σ V) :
    GoodIterator (Stream.mk (some it) (some (traceOp op))).Iterate := by
  intro fn hfn w l
  obtain ⟨evs, h1, h2⟩ := hit _ (goodCallback_func1 l.length (op w).1 fn hfn) (op w).2
    (l ++ [Event.factory l.length])
  simp only [Iterate_piped, traceOp_eq]
  refine ⟨Event.factory l.length :: evs, by rw [h1]; simp, ?_⟩
  rcases h2 with ⟨h3, h4⟩ | ⟨init, last, e, h3, h4, h5, h6⟩
  · rw [h3]
    exact Or.inl ⟨by simp, errFree_cons rfl h4⟩
  · refine Or.inr ⟨Event.factory l.length :: init, last, e, by rw [h3]; rfl,
      errFree_cons rfl h4, h5, ?_⟩
    rcases h6 with h6 | ⟨h6, h7⟩
    · rw [h6]
      by_cases hc : e = GoError.ErrStreamClosed
      · exact Or.inr ⟨hc, by simp [hc]⟩
      · exact Or.inl (by simp [hc])
    · rw [h7]
      exact Or.inr ⟨h6, by simp⟩

theorem goodIterator_pipeAll (ops : List (Operator σ V)) :
    ∀ s : Stream (σ × List (Event V)) V, GoodIterator s.Iterate →
      GoodIterator (pipeAll s (ops.map traceOp)).Iterate := by
  induction ops with
  | nil => intro s hs; exact hs
  | cons op ops ih =>
    intro s hs
    exact ih (s.Pipe (some (traceOp op))) (goodIterator_piped s.Iterate hs op)

/-- A stream made by `Pipe` with an operator never returns the sentinel. -/
theorem Pipe_ne_closed {ω : Type} (s : Stream ω V) (op : Operator ω V) (fn : Callback ω V)
    (w : ω) : ((s.Pipe (some op)).Iterate fn w).1 ≠ some GoError.ErrStreamClosed := by
  rw [Iterate_Pipe]
  by_cases h : (s.Iterate (Stream.Iterate.func1 (op w).1 fn) (op w).2).1
      = some GoError.ErrStreamClosed
  · simp [h]
  · simp [h]

/-- The stream built by at least one `Pipe` is the result of a last `Pipe`. -/
theorem pipeAll_cons_eq_Pipe {ω : Type} (ops : List (Operator ω V)) :
    ∀ (s : Stream ω V) (op : Operator ω V),
      ∃ (t : Stream ω V) (op1 : Operator ω V), pipeAll s (op :: ops) = t.Pipe (some op1) := by
  induction ops with
  | nil => intro s op; exact ⟨s, op, rfl⟩
  | cons o ops ih => intro s op; exact ih (s.Pipe (some op)) o

end ManyStages

/-! ## Consequences of the shape of the log -/

section ShapeFacts

variable {σ V : Type}

theorem loopShape_closureArgs {id : Nat} {f : OpFn σ V} {v : Callback σ V} {xs : List (Option (Environment V))}
    {r : Option GoError} {evs : List (Event V)} (h : LoopShape id f v xs r evs) :
    closureArgs evs <+: xs := by
  induction h with
  | done => exact List.prefix_refl _
  | opFail x xs w e _ => simp [closureArgs]
  | visitFail x xs w s e _ _ => simp [closureArgs]
  | step x xs w r rest _ _ ih => simpa [closureArgs] using ih

/-- With a closure that never fails, the position of a failing `visit` call among the
`visit` calls is the position of the element in the source, and the loop stops there. -/
theorem loopShape_visit_err {id : Nat} {f : OpFn σ V} {v : Callback σ V} {xs : List (Option (Environment V))}
    {r : Option GoError} {evs : List (Event V)} (h : LoopShape id f v xs r evs)
    (hf : ∀ x w, (f x w).1.2 = none) :
    ∀ (k : Nat) (e : GoError), (visitErrs evs)[k]? = some (some e) →
      r = some e ∧ (visitArgs evs).length = k + 1 ∧ closureArgs evs = xs.take (k + 1) ∧
        visitArgs evs = closureRes evs ∧ k + 1 ≤ xs.length := by
  induction h with
  | done => intro k e hk; simp [visitErrs] at hk
  | opFail x xs w e h => rw [hf] at h; cases h
  | visitFail x xs w s e1 _ _ =>
    intro k e hk
    cases k with
    | zero =>
      simp [visitErrs] at hk
      subst hk
      simp [visitArgs, closureArgs, closureRes]
    | succ k => simp [visitErrs] at hk
  | step x xs w r rest _ _ ih =>
    intro k e hk
    cases k with
    | zero => simp [visitErrs] at hk
    | succ k =>
      have hk1 : (visitErrs rest)[k]? = some (some e) := by simpa [visitErrs] using hk
      obtain ⟨h1, h2, h3, h4, h5⟩ := ih k e hk1
      refine ⟨h1, ?_, ?_, ?_, ?_⟩
      · simp [visitArgs, h2]
      · simp [closureArgs, h3]
      · simp [visitArgs, closureRes, h4]
      · simp only [List.length_cons]; omega

/-- With a closure that fails on no element of the source and a `visit` that never
fails, the loop passes every element through the closure and its result to `visit`. -/
theorem loopShape_total {id : Nat} {f : OpFn σ V} {v : Callback σ V}
    {xs : List (Option (Environment V))} {r : Option GoError} {evs : List (Event V)}
    (h : LoopShape id f v xs r evs) (g : Option (Environment V) → Option (Environment V))
    (hf : ∀ x ∈ xs, ∀ w, (f x w).1.2 = none) (hg : ∀ x w, (f x w).1.1 = g x)
    (hv : ∀ y s, (v y s).1 = none) :
    r = none ∧ closureArgs evs = xs ∧ visitArgs evs = xs.map g := by
  induction h with
  | done => simp [closureArgs, visitArgs]
  | opFail x xs w e h => rw [hf x (List.mem_cons_self _ _)] at h; cases h
  | visitFail x xs w s e _ h => rw [hv] at h; cases h
  | step x xs w r rest _ _ ih =>
    obtain ⟨h1, h2, h3⟩ := ih (fun y hy => hf y (List.mem_cons_of_mem _ hy))
    exact ⟨h1, by simp [closureArgs, h2], by simp [visitArgs, h3, hg]⟩

/-- With a closure that fails on no element of the source, whatever `visit` does, the
arguments of the `visit` calls are the results of the closure on an initial segment of
the source. -/
theorem loopShape_visitArgs {id : Nat} {f : OpFn σ V} {v : Callback σ V}
    {xs : List (Option (Environment V))} {r : Option GoError} {evs : List (Event V)}
    (h : LoopShape id f v xs r evs) (g : Option (Environment V) → Option (Environment V))
    (hf : ∀ x ∈ xs, ∀ w, (f x w).1.2 = none) (hg : ∀ x w, (f x w).1.1 = g x) :
    visitArgs evs <+: xs.map g := by
  induction h with
  | done => simp [visitArgs]
  | opFail x xs w e h => rw [hf x (List.mem_cons_self _ _)] at h; cases h
  | visitFail x xs w s e _ _ => simp [visitArgs, hg]
  | step x xs w r rest _ _ ih =>
    have := ih (fun y hy => hf y (List.mem_cons_of_mem _ hy))
    simpa [visitArgs, hg, List.prefix_cons_inj] using this

theorem loopShape_factoryIds {id : Nat} {f : OpFn σ V} {v : Callback σ V}
    {xs : List (Option (Environment V))} {r : Option GoError} {evs : List (Event V)}
    (h : LoopShape id f v xs r evs) :
    factoryIds evs = [] ∧ ∀ i ∈ closureIds evs, i = id := by
  induction h with
  | done => simp [factoryIds, closureIds]
  | opFail x xs w e _ => simp [factoryIds, closureIds]
  | visitFail x xs w s e _ _ => simp [factoryIds, closureIds]
  | step x xs w r rest _ _ ih => simpa [factoryIds, closureIds] using ih

theorem loopShape_alternates {id : Nat} {f : OpFn σ V} {v : Callback σ V}
    {xs : List (Option (Environment V))} {r : Option GoError} {evs : List (Event V)}
    (h : LoopShape id f v xs r evs) : Alternates id evs := by
  induction h with
  | done => simp [Alternates]
  | opFail x xs w e _ => simp [Alternates]
  | visitFail x xs w s e _ _ => simp [Alternates]
  | step x xs w r rest _ _ ih => simpa [Alternates] using ih

/-- The loop hands every element to the closure unless a call that returned an error cut
it short. -/
theorem loopShape_all_or_cut {id : Nat} {f : OpFn σ V} {v : Callback σ V}
    {xs : List (Option (Environment V))} {r : Option GoError} {evs : List (Event V)}
    (h : LoopShape id f v xs r evs) :
    closureArgs evs = xs ∨ ∃ init ev e, evs = init ++ [ev] ∧ ev.err = some e := by
  induction h with
  | done => exact Or.inl rfl
  | opFail x xs w e _ => exact Or.inr ⟨[], _, e, rfl, rfl⟩
  | visitFail x xs w s e _ _ => exact Or.inr ⟨[_], _, e, rfl, rfl⟩
  | step x xs w r rest _ _ ih =>
    rcases ih with ih | ⟨init, ev, e, h1, h2⟩
    · exact Or.inl (by simp [closureArgs, ih])
    · exact Or.inr ⟨_ :: _ :: init, ev, e, by rw [h1]; rfl, h2⟩

/-- The `visit` calls of the loop received the results of the closure calls that precede
the call that returned an error. -/
theorem loopShape_visitArgs_before_err {id : Nat} {f : OpFn σ V} {v : Callback σ V}
    {xs : List (Option (Environment V))} {r : Option GoError} {evs : List (Event V)}
    (h : LoopShape id f v xs r evs) :
    ∀ (pre post : List (Event V)) (ev : Event V) (e : GoError),
      evs = pre ++ ev :: post → ev.err = some e → visitArgs evs = closureRes pre := by
  induction h with
  | done => intro pre post ev e h1 _; simp at h1
  | opFail x xs w e0 _ =>
    intro pre post ev e h1 _
    cases pre with
    | nil => simp [visitArgs, closureRes]
    | cons a pre => simp at h1
  | visitFail x xs w s e0 _ _ =>
    intro pre post ev e h1 h2
    cases pre with
    | nil =>
      simp only [List.nil_append, List.cons.injEq] at h1
      rw [← h1.1] at h2
      cases h2
    | cons a pre =>
      cases pre with
      | nil =>
        simp only [List.cons_append, List.nil_append, List.cons.injEq] at h1
        rw [← h1.1]
        simp [visitArgs, closureRes]
      | cons b pre => simp at h1
  | step x xs w r rest _ _ ih =>
    intro pre post ev e h1 h2
    cases pre with
    | nil =>
      simp only [List.nil_append, List.cons.injEq] at h1
      rw [← h1.1] at h2
      cases h2
    | cons a pre =>
      cases pre with
      | nil =>
        simp only [List.cons_append, List.nil_append, List.cons.injEq] at h1
        rw [← h1.2.1] at h2
        cases h2
      | cons b pre =>
        simp only [List.cons_append, List.cons.injEq] at h1
        obtain ⟨ha, hb, hrest⟩ := h1
        have := ih pre post ev e hrest h2
        rw [← ha, ← hb]
        simpa [visitArgs, closureRes] using this

theorem func1_eq_observedStep (id : Nat) (f : OpFn σ V) (visit : Callback σ V) :
    Stream.Iterate.func1 (traceOpFn id f) (traceVisit visit) = observedStep id f visit := by
  funext env w
  obtain ⟨u, l⟩ := w
  cases hf : (f env u).1.2 with
  | some e =>
    rw [func1_err _ _ _ _ e (by rw [traceOpFn_eq]; exact hf), traceOpFn_eq]
    simp only [observedStep]
    split
    · next res e1 u1 heq =>
      have h1 := congrArg (fun p => p.1.2) heq
      have h2 := congrArg (fun p => p.1.1) heq
      have h3 := congrArg (fun p => p.2) heq
      simp only at h1 h2 h3
      rw [hf] at h1
      cases h1
      rw [hf, h2, h3]
    · next res u1 heq =>
      have h1 := congrArg (fun p => p.1.2) heq
      simp only at h1
      rw [hf] at h1
      cases h1
  | none =>
    rw [func1_ok _ _ _ _ (by rw [traceOpFn_eq]; exact hf), traceOpFn_eq, traceVisit_eq]
    simp only [observedStep]
    split
    · next res e1 u1 heq =>
      have h1 := congrArg (fun p => p.1.2) heq
      simp only at h1
      rw [hf] at h1
      cases h1
    · next res u1 heq =>
      have h2 := congrArg (fun p => p.1.1) heq
      have h3 := congrArg (fun p => p.2) heq
      simp only at h2 h3
      rw [hf, h2, h3]
      simp

end ShapeFacts

/-! ## The closure of `Map` -/

section MapFacts

variable {σ V : Type}

theorem Map_closure_err (e : Expr V) (w w1 : World σ (Environment V))
    (env : Option (Environment V)) :
    (((Map e : Operator (World σ (Environment V)) V) w).1 env w1).1.2 = (e.Eval env).2 := by
  simp only [Map, MapOperator.Operator]
  split
  · next v err h => simp [h]
  · next v h => simp [h]

theorem Map_closure_res (e : Expr V) (w w1 : World σ (Environment V))
    (env : Option (Environment V)) :
    (((Map e : Operator (World σ (Environment V)) V) w).1 env w1).1.1 = mapResult e env := by
  simp only [Map, MapOperator.Operator, mapResult]
  split
  · next v err h => simp
  · next v h =>
    simp [World.modify, Environment.SetCurrentValue, Environment.setOuter, Environment.current]

theorem liftExt_ok {C : Type} (visit : Callback σ V) (hv : ∀ env s, (visit env s).1 = none)
    (env : Option (Environment V)) (w : World σ C) : (liftExt visit env w).1 = none := by
  simp only [liftExt]
  exact hv env w.ext

end MapFacts

/-! ## Two runs of one stream -/

section Reuse

variable {σ V C : Type}

theorem Map_eq_localVarOperator (e : Expr V) :
    (Map e : Operator (World σ (Environment V)) V)
      = localVarOperator Environment.zero (mapBody e) := by
  funext w
  simp only [Map, MapOperator.Operator, localVarOperator]
  congr 1
  funext env w1
  simp only [mapBody]
  split
  · next v err h =>
    simp only [World.modify]
    congr 1
    cases w1
    simp
  · next v h =>
    simp only [World.modify, Function.update_same, Function.update_idem]

theorem shifted_alloc {n0 d : Nat} {w w1 : World σ C} (h : Shifted n0 d w w1) (init : C) :
    Shifted n0 d (w.alloc init) (w1.alloc init) := by
  obtain ⟨h1, h2, h3⟩ := h
  refine ⟨by simp only [World.alloc]; omega, by simp only [World.alloc]; omega, ?_⟩
  intro i hi hlt
  simp only [World.alloc] at hlt ⊢
  by_cases hia : i = w.next
  · subst hia
    rw [h1]
    simp
  · have hne : i + d ≠ w1.next := by omega
    rw [Function.update_noteq hne, Function.update_noteq hia]
    exact h3 i hi (by omega)

theorem shifted_modify {n0 d : Nat} {w w1 : World σ C} (h : Shifted n0 d w w1) (a : Nat)
    (ha : n0 ≤ a) (hlt : a < w.next) (f : C → C) :
    Shifted n0 d (w.modify a f) (w1.modify (a + d) f) := by
  obtain ⟨h1, h2, h3⟩ := h
  refine ⟨h1, h2, ?_⟩
  intro i hi hilt
  simp only [World.modify] at hilt ⊢
  by_cases hia : i = a
  · subst hia
    simp [h3 i hi hilt]
  · have hne : i + d ≠ a + d := by omega
    rw [Function.update_noteq hne, Function.update_noteq hia]
    exact h3 i hi hilt

theorem sameCallback_visit (n0 d m : Nat) (visit : Callback σ V)
    (hdet : ∀ env s s1, (visit env s).1 = (visit env s1).1) :
    SameCallback n0 d m (traceVisit (liftExt visit) :
      Callback (World σ C × List (Event V)) V) (traceVisit (liftExt visit)) := by
  intro env w w1 l hs _
  have hr : (liftExt visit env w).1 = (liftExt visit env w1).1 := hdet env w.ext w1.ext
  refine ⟨?_, ?_, ?_, ?_⟩
  · rw [traceVisit_eq, traceVisit_eq]; exact hr
  · rw [traceVisit_eq, traceVisit_eq]; simp only; rw [hr]
  · rw [traceVisit_eq, traceVisit_eq]
    exact hs
  · rw [traceVisit_eq]
    exact Nat.le_refl _

theorem sameRuns_list (n0 d : Nat) (xs : List (Option (Environment V))) :
    SameRuns n0 d (listIterator xs : Iterator (World σ C × List (Event V)) V) := by
  intro m fn fn1 hfn
  induction xs with
  | nil =>
    intro w w1 l hs _
    rw [listIterator_nil, listIterator_nil]
    exact ⟨rfl, rfl, hs, Nat.le_refl _⟩
  | cons x xs ih =>
    intro w w1 l hs hm
    obtain ⟨h1, h2, h3, h4⟩ := hfn x w w1 l hs hm
    cases hr : (fn x (w, l)).1 with
    | some e =>
      rw [listIterator_cons_err _ _ _ _ e hr, listIterator_cons_err _ _ _ _ e (h1 ▸ hr)]
      exact ⟨rfl, h2, h3, h4⟩
    | none =>
      rw [listIterator_cons_ok _ _ _ _ hr, listIterator_cons_ok _ _ _ _ (h1 ▸ hr)]
      have e1 : (fn x (w, l)).2 = ((fn x (w, l)).2.1, (fn x (w, l)).2.2) := rfl
      have e2 : (fn1 x (w1, l)).2 = ((fn1 x (w1, l)).2.1, (fn x (w, l)).2.2) := by
        rw [h2]
      rw [e1, e2]
      obtain ⟨k1, k2, k3, k4⟩ := ih (fn x (w, l)).2.1 (fn1 x (w1, l)).2.1 (fn x (w, l)).2.2 h3
        (Nat.le_trans hm h4)
      exact ⟨k1, k2, k3, Nat.le_trans h4 k4⟩

theorem sameCallback_func1 (n0 d m id : Nat) (init : C)
    (body : Option (Environment V) → C → (Option (Environment V) × Option GoError) × C)
    (w0 w01 : World σ C) (h0 : Shifted n0 d w0 w01)
    (fn fn1 : Callback (World σ C × List (Event V)) V) (hfn : SameCallback n0 d m fn fn1)
    (hm : m ≤ w0.next + 1) :
    SameCallback n0 d (w0.next + 1)
      (Stream.Iterate.func1 (traceOpFn id (localVarOperator init body w0).1) fn)
      (Stream.Iterate.func1 (traceOpFn id (localVarOperator init body w01).1) fn1) := by
  intro env u u1 l hs hu
  have hvar : u1.vars w01.next = u.vars w0.next := by
    rw [h0.1]
    exact hs.2.2 w0.next h0.2.1 (by omega)
  have hf : (localVarOperator init body w0).1 env u
      = ((body env (u.vars w0.next)).1, u.modify w0.next (fun x => (body env x).2)) := rfl
  have hf1 : (localVarOperator init body w01).1 env u1
      = ((body env (u.vars w0.next)).1, u1.modify (w0.next + d) (fun x => (body env x).2)) := by
    show ((body env (u1.vars w01.next)).1, u1.modify w01.next (fun x => (body env x).2)) = _
    rw [hvar, h0.1]
  have hs2 : Shifted n0 d (u.modify w0.next (fun x => (body env x).2))
      (u1.modify (w0.next + d) (fun x => (body env x).2)) :=
    shifted_modify hs w0.next h0.2.1 (by omega) _
  cases herr : (body env (u.vars w0.next)).1.2 with
  | some e =>
    rw [func1_err _ _ _ _ e (by rw [traceOpFn_eq, hf]; exact herr),
      func1_err _ _ _ _ e (by rw [traceOpFn_eq, hf1]; exact herr),
      traceOpFn_eq, traceOpFn_eq, hf, hf1]
    exact ⟨rfl, rfl, hs2, Nat.le_refl _⟩
  | none =>
    rw [func1_ok _ _ _ _ (by rw [traceOpFn_eq, hf]; exact herr),
      func1_ok _ _ _ _ (by rw [traceOpFn_eq, hf1]; exact herr),
      traceOpFn_eq, traceOpFn_eq, hf, hf1]
    have hu2 : m ≤ (u.modify w0.next (fun x => (body env x).2)).next :=
      Nat.le_trans hm hu
    exact hfn _ _ _ _ hs2 hu2

theorem sameRuns_piped (n0 d : Nat) (it : Iterator (World σ C × List (Event V)) V)
    (hit : SameRuns n0 d it) (init : C)
    (body : Option (Environment V) → C → (Option (Environment V) × Option GoError) × C) :
    SameRuns n0 d (Stream.mk (some it) (some (traceOp (localVarOperator init body)))).Iterate := by
  intro m fn fn1 hfn w w1 l hs hm
  obtain ⟨k1, k2, k3, k4⟩ := hit (w.next + 1) _ _
    (sameCallback_func1 n0 d m l.length init body w w1 hs fn fn1 hfn (by omega))
    (w.alloc init) (w1.alloc init) (l ++ [Event.factory l.length]) (shifted_alloc hs init)
    (Nat.le_refl _)
  simp only [Iterate_piped, traceOp_eq]
  have e1 : (localVarOperator init body w).2 = w.alloc init := rfl
  have e2 : (localVarOperator init body w1).2 = w1.alloc init := rfl
  rw [e1, e2]
  refine ⟨by rw [k1], k2, k3, ?_⟩
  have : w.next ≤ (w.alloc init).next := by simp [World.alloc]
  exact Nat.le_trans this k4

theorem sameRuns_pipeAll (n0 d : Nat) (ops : List (Operator (World σ C) V))
    (hops : ∀ op ∈ ops, ∃ init body, op = localVarOperator init body) :
    ∀ s : Stream (World σ C × List (Event V)) V, SameRuns n0 d s.Iterate →
      SameRuns n0 d (pipeAll s (ops.map traceOp)).Iterate := by
  induction ops with
  | nil => intro s hs; exact hs
  | cons op ops ih =>
    intro s hs
    obtain ⟨init, body, rfl⟩ := hops op (List.mem_cons_self _ _)
    exact ih (fun o ho => hops o (List.mem_cons_of_mem _ ho))
      (s.Pipe (some (traceOp (localVarOperator init body))))
      (sameRuns_piped n0 d s.Iterate hs init body)

end Reuse

/-! ## Chains of operators that never fail -/

section Chain

variable {σ V : Type}

theorem visitArgs_append (l1 l2 : List (Event V)) :
    visitArgs (l1 ++ l2) = visitArgs l1 ++ visitArgs l2 := by
  induction l1 with
  | nil => rfl
  | cons ev l1 ih => cases ev <;> simp [visitArgs, ih]

theorem emits_traceVisit (v : Callback σ V) (hv : ∀ env s, (v env s).1 = none) :
    Emits (fun env => env) (traceVisit v) := by
  intro env w l
  rw [traceVisit_eq]
  exact ⟨hv env w, [Event.visit env (v env w).1], rfl, rfl⟩

theorem emits_func1 (id : Nat) (f : OpFn σ V) (h : Option (Environment V) → Option (Environment V))
    (hf : ∀ env w, (f env w).1 = (h env, none))
    (g : Option (Environment V) → Option (Environment V))
    (fn : Callback (σ × List (Event V)) V) (hfn : Emits g fn) :
    Emits (fun env => g (h env)) (Stream.Iterate.func1 (traceOpFn id f) fn) := by
  intro env w l
  have h1 : (f env w).1.2 = none := by rw [hf]
  have h2 : (f env w).1.1 = h env := by rw [hf]
  rw [func1_ok _ _ _ _ (by rw [traceOpFn_eq]; exact h1), traceOpFn_eq, h1, h2]
  obtain ⟨k1, evs, k2, k3⟩ := hfn (h env) (f env w).2 (l ++ [Event.closure id env (h env) none])
  refine ⟨k1, Event.closure id env (h env) none :: evs, by rw [k2]; simp, ?_⟩
  simpa [visitArgs] using k3

theorem produces_list (xs : List (Option (Environment V))) :
    Produces (listIterator xs : Iterator (σ × List (Event V)) V) xs := by
  intro g fn hfn
  induction xs with
  | nil =>
    intro w l
    rw [listIterator_nil]
    exact ⟨rfl, [], by simp, rfl⟩
  | cons x xs ih =>
    intro w l
    obtain ⟨h1, evs1, h2, h3⟩ := hfn x w l
    rw [listIterator_cons_ok _ _ _ _ h1]
    have hst : (fn x (w, l)).2 = ((fn x (w, l)).2.1, l ++ evs1) := by
      rw [← h2]
    rw [hst]
    obtain ⟨k1, evs2, k2, k3⟩ := ih (fn x (w, l)).2.1 (l ++ evs1)
    exact ⟨k1, evs1 ++ evs2, by rw [k2]; simp, by rw [visitArgs_append, h3, k3]; rfl⟩

theorem produces_piped (it : Iterator (σ × List (Event V)) V) (ys : List (Option (Environment V)))
    (hit : Produces it ys) (op : Operator σ V)
    (h : Option (Environment V) → Option (Environment V))
    (hop : ∀ w0 env w1, ((op w0).1 env w1).1 = (h env, none)) :
    Produces (Stream.mk (some it) (some (traceOp op))).Iterate (ys.map h) := by
  intro g fn hfn w l
  obtain ⟨k1, evs, k2, k3⟩ := hit _ _
    (emits_func1 l.length (op w).1 h (hop w) g fn hfn) (op w).2 (l ++ [Event.factory l.length])
  simp only [Iterate_piped, traceOp_eq]
  refine ⟨by rw [k1]; simp, Event.factory l.length :: evs, by rw [k2]; simp, ?_⟩
  rw [List.map_map]
  simpa [visitArgs] using k3

end Chain

/-! ## The claims about `Iterate`, `New` and `Pipe` -/

section Claims

variable {ω σ V : Type}

/-- Counterexample to C1 as stated: on the stream `New(source)`, with no `Pipe`, a `visit`
that returns `ErrStreamClosed` on the first element makes `Iterate` return
`ErrStreamClosed` itself, not nil. -/
theorem C1_New_alone_returns_ErrStreamClosed :
    (New (some (listIterator sample123))).Iterate (traceVisit closedVisit) ((), [])
      = (some GoError.ErrStreamClosed,
          ((), [Event.visit (some (Environment.mk (some 1) none))
                  (some GoError.ErrStreamClosed)])) := by
  rfl

/-- C1, amended: for every stream built by `New` over a list backed source followed by
at least one `Pipe` call, for all operators, every `visit` and every initial state,
`Iterate` never returns `ErrStreamClosed`; and when some call of `visit` returns
`ErrStreamClosed`, `Iterate` returns nil and that call is the last call made to any
closure or to `visit` (nothing is recorded after it). -/
theorem C1_piped_stream_consumes_ErrStreamClosed (xs : List (Option (Environment V)))
    (op : Operator σ V) (ops : List (Operator σ V)) (visit : Callback σ V) (w : σ) :
    ((pipeAll (New (some (listIterator xs))) ((op :: ops).map traceOp)).Iterate
        (traceVisit visit) (w, [])).1 ≠ some GoError.ErrStreamClosed ∧
    ∀ (pre post : List (Event V)) (arg : Option (Environment V)),
      ((pipeAll (New (some (listIterator xs))) ((op :: ops).map traceOp)).Iterate
          (traceVisit visit) (w, [])).2.2
        = pre ++ Event.visit arg (some GoError.ErrStreamClosed) :: post →
      ((pipeAll (New (some (listIterator xs))) ((op :: ops).map traceOp)).Iterate
          (traceVisit visit) (w, [])).1 = none ∧ post = [] := by
  have hne : ((pipeAll (New (some (listIterator xs))) ((op :: ops).map traceOp)).Iterate
        (traceVisit visit) (w, [])).1 ≠ some GoError.ErrStreamClosed := by
    obtain ⟨t, op1, ht⟩ := pipeAll_cons_eq_Pipe (ops.map traceOp)
      (New (some (listIterator xs))) (traceOp op)
    rw [List.map_cons, ht]
    exact Pipe_ne_closed t op1 _ _
  refine ⟨hne, ?_⟩
  intro pre post arg hlog
  obtain ⟨evs, h1, h2⟩ := goodIterator_pipeAll (op :: ops) (New (some (listIterator xs)))
    (goodIterator_list xs) (traceVisit visit) (goodCallback_traceVisit visit) w []
  rw [List.nil_append] at h1
  rw [h1] at hlog
  rcases h2 with ⟨_, h3⟩ | ⟨init, last, e, h3, h4, h5, h6⟩
  · have := h3 (Event.visit arg (some GoError.ErrStreamClosed)) (by rw [hlog]; simp)
    simp [Event.err] at this
  · have hx : Event.visit arg (some GoError.ErrStreamClosed) ∉ init := by
      intro hmem
      have := h4 _ hmem
      simp [Event.err] at this
    obtain ⟨hp, hl⟩ := split_last (hlog.symm.trans h3) hx
    refine ⟨?_, hp⟩
    rcases h6 with h6 | ⟨_, h6⟩
    · rw [← hl] at h5
      simp only [Event.err, Option.some.injEq] at h5
      rw [h6, ← h5] at hne
      exact absurd rfl hne
    · exact h6

/-- Witness of C1 (amended): two `Pipe` calls over a source of three elements and a
`visit` that returns the sentinel at once; `Iterate` returns nil and nothing follows the
first `visit` call. -/
theorem C1_piped_stream_consumes_ErrStreamClosed_witness :
    ((pipeAll (New (some (listIterator sample123))) ([passOp, passOp].map traceOp)).Iterate
        (traceVisit closedVisit) ((), [])).1 = none ∧
    ([] : List (Event Nat)) = [] :=
  (C1_piped_stream_consumes_ErrStreamClosed sample123 passOp [passOp] closedVisit ()).2
    [Event.factory 0, Event.factory 1,
      Event.closure 1 (some (Environment.mk (some 1) none))
        (some (Environment.mk (some 1) none)) none,
      Event.closure 0 (some (Environment.mk (some 1) none))
        (some (Environment.mk (some 1) none)) none]
    [] (some (Environment.mk (some 1) none)) rfl

/-- C7: for every non-nil iterator `it`, `New(it).Iterate` is `it.Iterate`: the same
function of the callback and of the state, hence the same calls of `visit` and the same
returned error. -/
theorem C7_New_delegates_to_source (it : Iterator ω V) :
    (New (some it)).Iterate = it := by
  rfl

/-- C2, the code at a failing input: over the source 1, 2, 3 the closure of the filter
returns a nil environment and a nil error for the first and the third element; `visit`
is nevertheless invoked for them, with a nil environment. -/
theorem C2_nil_environment_is_passed_to_visit :
    visitArgs (((New (some (listIterator sample123))).Pipe (some (traceOp keep2Op))).Iterate
        (traceVisit okVisit) ((), [])).2.2
      = [none, some (Environment.mk (some 2) none), none] := by
  rfl

/-- C3: on a stream `New(list).Pipe(op)`, if a call of the operator closure or of `visit`
returns an error `e` other than `ErrStreamClosed`, then `Iterate` returns exactly `e`, and
that call is the last call of the run: neither the closure nor `visit` is invoked for a
later element.  The `visit` calls of the run received exactly the results of the closure
calls made before the failing call, so `visit` is not invoked for the element on which the
closure failed; in the log, after the factory call, each successful closure call is
directly followed by the `visit` call on its result and `visit` is called nowhere else;
and the closure was applied to an initial segment of the source. -/
theorem C3_error_is_returned_unchanged (xs : List (Option (Environment V)))
    (op : Operator σ V) (visit : Callback σ V) (w : σ) (e : GoError)
    (pre post : List (Event V)) (ev : Event V)
    (hlog : (((New (some (listIterator xs))).Pipe (some (traceOp op))).Iterate
        (traceVisit visit) (w, [])).2.2 = pre ++ ev :: post)
    (herr : ev.err = some e) (hne : e ≠ GoError.ErrStreamClosed) :
    (((New (some (listIterator xs))).Pipe (some (traceOp op))).Iterate
        (traceVisit visit) (w, [])).1 = some e ∧
    post = [] ∧
    closureArgs (((New (some (listIterator xs))).Pipe (some (traceOp op))).Iterate
        (traceVisit visit) (w, [])).2.2 <+: xs ∧
    visitArgs (((New (some (listIterator xs))).Pipe (some (traceOp op))).Iterate
        (traceVisit visit) (w, [])).2.2 = closureRes pre ∧
    ∃ body : List (Event V),
      (((New (some (listIterator xs))).Pipe (some (traceOp op))).Iterate
        (traceVisit visit) (w, [])).2.2 = Event.factory 0 :: body ∧
      Alternates 0 body := by
  obtain ⟨evs, h1, h2⟩ := goodIterator_pipeAll [op] (New (some (listIterator xs)))
    (goodIterator_list xs) (traceVisit visit) (goodCallback_traceVisit visit) w []
  have hrun : (pipeAll (New (some (listIterator xs))) ([op].map traceOp))
      = (New (some (listIterator xs))).Pipe (some (traceOp op)) := rfl
  rw [hrun, List.nil_append] at h1
  rw [hrun] at h2
  obtain ⟨r, evs1, h3, h4, _⟩ := one_stage_run xs op visit w []
  rw [List.nil_append] at h3
  refine ⟨?_, ?_, ?_, ?_, ?_⟩
  · rcases h2 with ⟨_, h3⟩ | ⟨init, last, e1, h3, h4, h5, h6⟩
    · have := h3 ev (by rw [← h1, hlog]; simp)
      rw [herr] at this; cases this
    · have hx : ev ∉ init := by
        intro hmem
        have := h4 _ hmem
        rw [herr] at this; cases this
      obtain ⟨_, hl⟩ := split_last ((hlog.symm.trans h1).trans h3) hx
      rw [← hl, herr] at h5
      cases h5
      rcases h6 with h6 | ⟨h6, _⟩
      · exact h6
      · exact absurd h6 hne
  · rcases h2 with ⟨_, h3⟩ | ⟨init, last, e1, h3, h4, h5, h6⟩
    · have := h3 ev (by rw [← h1, hlog]; simp)
      rw [herr] at this; cases this
    · have hx : ev ∉ init := by
        intro hmem
        have := h4 _ hmem
        rw [herr] at this; cases this
      exact (split_last ((hlog.symm.trans h1).trans h3) hx).1
  · rw [h3]
    simpa [closureArgs] using loopShape_closureArgs h4
  · have hsplit : Event.factory 0 :: evs1 = pre ++ ev :: post := h3.symm.trans hlog
    cases pre with
    | nil =>
      simp only [List.nil_append, List.cons.injEq] at hsplit
      rw [← hsplit.1] at herr
      cases herr
    | cons a pre1 =>
      simp only [List.cons_append, List.cons.injEq] at hsplit
      obtain ⟨ha, hrest⟩ := hsplit
      have := loopShape_visitArgs_before_err h4 pre1 post ev e hrest herr
      rw [h3, ← ha]
      simpa [visitArgs, closureRes] using this
  · exact ⟨evs1, h3, loopShape_alternates h4⟩

/-- Witness of C3: the closure fails with another error on the second of three elements;
`Iterate` returns that error, nothing runs after the failed call, and `visit` has been
invoked for the first element only. -/
theorem C3_error_is_returned_unchanged_witness :
    (((New (some (listIterator sample123))).Pipe (some (traceOp failOn2Op))).Iterate
        (traceVisit okVisit) ((), [])).1 = some (GoError.other "boom") ∧
    ([] : List (Event Nat)) = [] ∧
    closureArgs (((New (some (listIterator sample123))).Pipe (some (traceOp failOn2Op))).Iterate
        (traceVisit okVisit) ((), [])).2.2 <+: sample123 ∧
    visitArgs (((New (some (listIterator sample123))).Pipe (some (traceOp failOn2Op))).Iterate
        (traceVisit okVisit) ((), [])).2.2
      = closureRes [Event.factory 0,
          Event.closure 0 (some (Environment.mk (some 1) none))
            (some (Environment.mk (some 1) none)) none,
          Event.visit (some (Environment.mk (some 1) none)) none] :=
  have h := C3_error_is_returned_unchanged sample123 failOn2Op okVisit () (GoError.other "boom")
    [Event.factory 0,
      Event.closure 0 (some (Environment.mk (some 1) none))
        (some (Environment.mk (some 1) none)) none,
      Event.visit (some (Environment.mk (some 1) none)) none]
    []
    (Event.closure 0 (some (Environment.mk (some 2) none)) none (some (GoError.other "boom")))
    rfl rfl (by decide)
  ⟨h.1, h.2.1, h.2.2.1, h.2.2.2.1⟩

/-- C4: on a stream `New(list).Pipe(op)` whose closure never fails and never returns nil,
if the call number `k` (from 0) of `visit` returns `ErrStreamClosed`, then `Iterate`
returns nil, `visit` has been invoked exactly `k + 1` times, the closure has been applied
to the first `k + 1` elements of the source and to no other, each `visit` call received
the result of the closure for its element, and `k + 1` is at most the length of the
source: the elements after position `k` are not consumed. -/
theorem C4_ErrStreamClosed_from_visit_stops_early (xs : List (Option (Environment V)))
    (op : Operator σ V) (visit : Callback σ V) (w : σ) (k : Nat)
    (hop : ∀ (w0 : σ) (x : Option (Environment V)) (w1 : σ),
      ((op w0).1 x w1).1.2 = none ∧ ((op w0).1 x w1).1.1 ≠ none)
    (hk : (visitErrs (((New (some (listIterator xs))).Pipe (some (traceOp op))).Iterate
        (traceVisit visit) (w, [])).2.2)[k]? = some (some GoError.ErrStreamClosed)) :
    (((New (some (listIterator xs))).Pipe (some (traceOp op))).Iterate
        (traceVisit visit) (w, [])).1 = none ∧
    (visitArgs (((New (some (listIterator xs))).Pipe (some (traceOp op))).Iterate
        (traceVisit visit) (w, [])).2.2).length = k + 1 ∧
    closureArgs (((New (some (listIterator xs))).Pipe (some (traceOp op))).Iterate
        (traceVisit visit) (w, [])).2.2 = xs.take (k + 1) ∧
    visitArgs (((New (some (listIterator xs))).Pipe (some (traceOp op))).Iterate
        (traceVisit visit) (w, [])).2.2
      = closureRes (((New (some (listIterator xs))).Pipe (some (traceOp op))).Iterate
        (traceVisit visit) (w, [])).2.2 ∧
    k + 1 ≤ xs.length := by
  obtain ⟨r, evs, h1, h2, h3⟩ := one_stage_run xs op visit w []
  rw [h1] at hk ⊢
  rw [h3]
  have hk1 : (visitErrs evs)[k]? = some (some GoError.ErrStreamClosed) := by
    simpa [visitErrs] using hk
  obtain ⟨h4, h5, h6, h7, h8⟩ :=
    loopShape_visit_err h2 (fun x w1 => (hop w x w1).1) k _ hk1
  refine ⟨by simp [h4], ?_, ?_, ?_, h8⟩
  · simpa [visitArgs] using h5
  · simpa [closureArgs] using h6
  · simpa [visitArgs, closureRes] using h7

/-- Witness of C4: three elements, an operator that passes them on, and a `visit` with a
counter that returns the sentinel at its second call (`k = 1`). -/
theorem C4_ErrStreamClosed_from_visit_stops_early_witness :
    (((New (some (listIterator sample123))).Pipe (some (traceOp passOpNat))).Iterate
        (traceVisit closeAtSecondVisit) (0, [])).1 = none ∧
    (visitArgs (((New (some (listIterator sample123))).Pipe (some (traceOp passOpNat))).Iterate
        (traceVisit closeAtSecondVisit) (0, [])).2.2).length = 1 + 1 ∧
    closureArgs (((New (some (listIterator sample123))).Pipe (some (traceOp passOpNat))).Iterate
        (traceVisit closeAtSecondVisit) (0, [])).2.2 = sample123.take (1 + 1) :=
  have h := C4_ErrStreamClosed_from_visit_stops_early sample123 passOpNat closeAtSecondVisit
    0 1 (fun _ _ _ => ⟨rfl, by simp [passOpNat]⟩) rfl
  ⟨h.1, h.2.1, h.2.2.1⟩

/-- C5: during one call of `Iterate` on `s.Pipe(op)`, for every receiver `s`, every
operator `op`, every `visit` and every state, the factory `op` is invoked exactly once,
first: the run is the run of the source `s`, started in the state the one factory call
left and after its one log entry, with the callback that applies the closure returned by
that call to its argument (and then `visit` to the result, unless the closure failed).
Over a list backed source, whatever its length and however the call ends, the log of the
call is the factory event followed by no other factory event; every closure call is
served by the closure of that invocation, each successful one directly followed by the
`visit` call on its result; and that closure is applied to every element of the source,
in order, up to a call that returned an error. -/
theorem C5_factory_invoked_once_per_Iterate (op : Operator σ V) (visit : Callback σ V)
    (w : σ) (l0 : List (Event V)) :
    (∀ s : Stream (σ × List (Event V)) V,
      (s.Pipe (some (traceOp op))).Iterate (traceVisit visit) (w, l0)
        = (if (s.Iterate (observedStep l0.length (op w).1 visit)
                ((op w).2, l0 ++ [Event.factory l0.length])).1 = some GoError.ErrStreamClosed
            then none
            else (s.Iterate (observedStep l0.length (op w).1 visit)
                ((op w).2, l0 ++ [Event.factory l0.length])).1,
           (s.Iterate (observedStep l0.length (op w).1 visit)
                ((op w).2, l0 ++ [Event.factory l0.length])).2)) ∧
    (∀ xs : List (Option (Environment V)),
      ∃ body : List (Event V),
        (((New (some (listIterator xs))).Pipe (some (traceOp op))).Iterate
            (traceVisit visit) (w, l0)).2.2 = l0 ++ Event.factory l0.length :: body ∧
        factoryIds body = [] ∧
        (∀ i ∈ closureIds body, i = l0.length) ∧
        Alternates l0.length body ∧
        closureArgs body <+: xs ∧
        (closureArgs body = xs ∨
          ∃ (init : List (Event V)) (ev : Event V) (e : GoError),
            body = init ++ [ev] ∧ ev.err = some e)) := by
  constructor
  · intro s
    rw [Iterate_Pipe, traceOp_eq]
    simp only [func1_eq_observedStep]
  · intro xs
    obtain ⟨r, evs, h1, h2, _⟩ := one_stage_run xs op visit w l0
    obtain ⟨h3, h4⟩ := loopShape_factoryIds h2
    exact ⟨evs, h1, h3, h4, loopShape_alternates h2, loopShape_closureArgs h2,
      loopShape_all_or_cut h2⟩

/-- Witness of C5: a source of three elements whose second makes the closure fail: the
factory is invoked once, at the start, and its closure is applied to an initial segment of
the source, the call being cut short by the error. -/
theorem C5_factory_invoked_once_per_Iterate_witness :
    ∃ body : List (Event Nat),
      (((New (some (listIterator sample123))).Pipe (some (traceOp failOn2Op))).Iterate
          (traceVisit okVisit) ((), [])).2.2
        = [] ++ Event.factory ([] : List (Event Nat)).length :: body ∧
      factoryIds body = [] ∧
      (∀ i ∈ closureIds body, i = ([] : List (Event Nat)).length) ∧
      Alternates ([] : List (Event Nat)).length body ∧
      closureArgs body <+: sample123 ∧
      (closureArgs body = sample123 ∨
        ∃ (init : List (Event Nat)) (ev : Event Nat) (e : GoError),
          body = init ++ [ev] ∧ ev.err = some e) :=
  (C5_factory_invoked_once_per_Iterate failOn2Op okVisit () []).2 sample123

/-- C6: for every expression `E` and every list backed source `xs` on whose elements `E`
evaluates without error, iterating `New(xs).Pipe(Map(E))` passes to `visit`, call after
call, the environments whose current value is the value of `E` on `xs[0]`, `xs[1]`, ...
and whose `Outer` is that element; and when `visit` returns nil, as in `TestStream`,
`Iterate` returns nil and `visit` is invoked exactly once per element, in order, the call
number `i` receiving an environment on which `GetCurrentValue` returns the value of `E`
on `xs[i]` and whose `Outer` is `xs[i]`. -/
theorem C6_Map_end_to_end (E : Expr V) (xs : List (Option (Environment V)))
    (visit : Callback σ V) (w : World σ (Environment V))
    (hE : ∀ x ∈ xs, (E.Eval x).2 = none) :
    visitArgs (((New (some (listIterator xs))).Pipe (some (traceOp (Map E)))).Iterate
        (traceVisit (liftExt visit)) (w, [])).2.2
      <+: xs.map (fun x => some (Environment.mk (some (E.Eval x).1) x)) ∧
    ((∀ env s, (visit env s).1 = none) →
      (((New (some (listIterator xs))).Pipe (some (traceOp (Map E)))).Iterate
          (traceVisit (liftExt visit)) (w, [])).1 = none ∧
      visitArgs (((New (some (listIterator xs))).Pipe (some (traceOp (Map E)))).Iterate
          (traceVisit (liftExt visit)) (w, [])).2.2
        = xs.map (fun x => some (Environment.mk (some (E.Eval x).1) x)) ∧
      ∀ (i : Nat) (h : i < xs.length),
        ∃ env : Environment V,
          (visitArgs (((New (some (listIterator xs))).Pipe (some (traceOp (Map E)))).Iterate
            (traceVisit (liftExt visit)) (w, [])).2.2)[i]? = some (some env) ∧
          env.GetCurrentValue = some (E.Eval (xs.get ⟨i, h⟩)).1 ∧
          env.Outer = xs.get ⟨i, h⟩) := by
  obtain ⟨r, evs, h1, h2, h3⟩ := one_stage_run xs (Map E) (liftExt visit) w []
  have hmap : xs.map (mapResult E)
      = xs.map (fun x => some (Environment.mk (some (E.Eval x).1) x)) := by
    apply List.map_congr_left
    intro x hx
    have := hE x hx
    simp only [mapResult]
    split
    · next v err h => rw [h] at this; cases this
    · next v h => simp [h]
  have hlog : visitArgs (((New (some (listIterator xs))).Pipe
      (some (traceOp (Map E)))).Iterate (traceVisit (liftExt visit)) (w, [])).2.2
      = visitArgs evs := by
    rw [h1]; simp [visitArgs]
  constructor
  · rw [hlog, ← hmap]
    exact loopShape_visitArgs h2 (mapResult E)
      (fun x hx w1 => by rw [Map_closure_err]; exact hE x hx)
      (fun x w1 => Map_closure_res E w w1 x)
  · intro hvisit
    obtain ⟨h4, _, h6⟩ := loopShape_total h2 (mapResult E)
      (fun x hx w1 => by rw [Map_closure_err]; exact hE x hx)
      (fun x w1 => Map_closure_res E w w1 x) (liftExt_ok visit hvisit)
    have hargs : visitArgs (((New (some (listIterator xs))).Pipe
        (some (traceOp (Map E)))).Iterate (traceVisit (liftExt visit)) (w, [])).2.2
        = xs.map (fun x => some (Environment.mk (some (E.Eval x).1) x)) := by
      rw [hlog, ← hmap, ← h6]
    refine ⟨by rw [h3, h4]; simp, hargs, ?_⟩
    intro i h
    refine ⟨Environment.mk (some (E.Eval (xs.get ⟨i, h⟩)).1) (xs.get ⟨i, h⟩), ?_, rfl, rfl⟩
    rw [hargs]
    simp [List.getElem?_map, List.getElem?_eq_getElem h]

/-- Witness of C6: `Map` of an expression that multiplies the current value by ten, over
the source 1, 2, 3. -/
theorem C6_Map_end_to_end_witness :
    (((New (some (listIterator sample123))).Pipe (some (traceOp (Map tenTimes)))).Iterate
        (traceVisit (liftExt okVisit)) (emptyWorld, [])).1 = none ∧
    visitArgs (((New (some (listIterator sample123))).Pipe
        (some (traceOp (Map tenTimes)))).Iterate (traceVisit (liftExt okVisit))
          (emptyWorld, [])).2.2
      = [some (Environment.mk (some 10) (some (Environment.mk (some 1) none))),
         some (Environment.mk (some 20) (some (Environment.mk (some 2) none))),
         some (Environment.mk (some 30) (some (Environment.mk (some 3) none)))] :=
  have h := (C6_Map_end_to_end tenTimes sample123 okVisit emptyWorld
    (fun _ _ => rfl)).2 (fun _ _ => rfl)
  ⟨h.1, h.2.1⟩

/-- C8: a stream built by `New` over a list backed source and any number of `Pipe` calls,
with operators whose only mutable state is a variable declared in the factory call (as
the `newEnv` of `Map`, or an accumulator), is reusable: for every `visit` whose returned
error depends on its argument only, a second `Iterate`, run in the state left by the
first, returns the same error and makes the same calls with the same arguments and
results as the first; in particular `visit` receives the same sequence of arguments. -/
theorem C8_stream_is_reusable {C : Type} (xs : List (Option (Environment V)))
    (ops : List (Operator (World σ C) V))
    (hops : ∀ op ∈ ops, ∃ init body, op = localVarOperator init body)
    (visit : Callback σ V) (hdet : ∀ env s s1, (visit env s).1 = (visit env s1).1)
    (w : World σ C) :
    ((pipeAll (New (some (listIterator xs))) (ops.map traceOp)).Iterate
        (traceVisit (liftExt visit))
        (((pipeAll (New (some (listIterator xs))) (ops.map traceOp)).Iterate
          (traceVisit (liftExt visit)) (w, [])).2.1, [])).1
      = ((pipeAll (New (some (listIterator xs))) (ops.map traceOp)).Iterate
          (traceVisit (liftExt visit)) (w, [])).1 ∧
    ((pipeAll (New (some (listIterator xs))) (ops.map traceOp)).Iterate
        (traceVisit (liftExt visit))
        (((pipeAll (New (some (listIterator xs))) (ops.map traceOp)).Iterate
          (traceVisit (liftExt visit)) (w, [])).2.1, [])).2.2
      = ((pipeAll (New (some (listIterator xs))) (ops.map traceOp)).Iterate
          (traceVisit (liftExt visit)) (w, [])).2.2 ∧
    visitArgs ((pipeAll (New (some (listIterator xs))) (ops.map traceOp)).Iterate
        (traceVisit (liftExt visit))
        (((pipeAll (New (some (listIterator xs))) (ops.map traceOp)).Iterate
          (traceVisit (liftExt visit)) (w, [])).2.1, [])).2.2
      = visitArgs ((pipeAll (New (some (listIterator xs))) (ops.map traceOp)).Iterate
          (traceVisit (liftExt visit)) (w, [])).2.2 := by
  have hmono : w.next ≤ ((pipeAll (New (some (listIterator xs))) (ops.map traceOp)).Iterate
      (traceVisit (liftExt visit)) (w, [])).2.1.next :=
    (sameRuns_pipeAll w.next 0 ops hops (New (some (listIterator xs)))
      (sameRuns_list w.next 0 xs) 0 _ _ (sameCallback_visit w.next 0 0 visit hdet)
      w w [] ⟨rfl, Nat.le_refl _, fun i _ _ => rfl⟩ (Nat.zero_le _)).2.2.2
  have hshift : Shifted w.next
      (((pipeAll (New (some (listIterator xs))) (ops.map traceOp)).Iterate
        (traceVisit (liftExt visit)) (w, [])).2.1.next - w.next) w
      ((pipeAll (New (some (listIterator xs))) (ops.map traceOp)).Iterate
        (traceVisit (liftExt visit)) (w, [])).2.1 :=
    ⟨by omega, Nat.le_refl _, fun i h1 h2 => absurd h2 (by omega)⟩
  obtain ⟨k1, k2, _, _⟩ := sameRuns_pipeAll w.next _ ops hops (New (some (listIterator xs)))
    (sameRuns_list w.next _ xs) 0 _ _ (sameCallback_visit w.next _ 0 visit hdet)
    w _ [] hshift (Nat.zero_le _)
  exact ⟨k1.symm, k2.symm, by rw [k2]⟩

/-- Witness of C8: `Map` twice over the source 1, 2, 3; both runs hand `visit` the same
three environments. -/
theorem C8_stream_is_reusable_witness :
    ((pipeAll (New (some (listIterator sample123))) ([Map tenTimes].map traceOp)).Iterate
        (traceVisit (liftExt okVisit))
        (((pipeAll (New (some (listIterator sample123))) ([Map tenTimes].map traceOp)).Iterate
          (traceVisit (liftExt okVisit)) (emptyWorld, [])).2.1, [])).1
      = ((pipeAll (New (some (listIterator sample123))) ([Map tenTimes].map traceOp)).Iterate
          (traceVisit (liftExt okVisit)) (emptyWorld, [])).1 ∧
    visitArgs ((pipeAll (New (some (listIterator sample123)))
        ([Map tenTimes].map traceOp)).Iterate (traceVisit (liftExt okVisit))
        (((pipeAll (New (some (listIterator sample123))) ([Map tenTimes].map traceOp)).Iterate
          (traceVisit (liftExt okVisit)) (emptyWorld, [])).2.1, [])).2.2
      = visitArgs ((pipeAll (New (some (listIterator sample123)))
          ([Map tenTimes].map traceOp)).Iterate (traceVisit (liftExt okVisit))
            (emptyWorld, [])).2.2 :=
  have h := C8_stream_is_reusable sample123 [Map tenTimes]
    (fun op hop => ⟨Environment.zero, mapBody tenTimes, by
      rw [List.mem_singleton.1 hop]; exact Map_eq_localVarOperator tenTimes⟩)
    okVisit (fun _ _ _ => rfl) emptyWorld
  ⟨h.1, h.2.2⟩

end Claims

/-! ## The claims about early termination, chaining, `Map` and missing sources -/

section Claims2

variable {ω σ V : Type}

/-- C13, the code at a failing input: over the source 1, 2, 3, 4 the closure returns a nil
environment (and a nil error) for the first element, passes the second on and returns
`ErrStreamClosed` for the third.  `Iterate` returns nil and the fourth element is never
handed to the closure, but `visit` has been invoked twice, the first time with a nil
environment for the element that the closure did not pass on. -/
theorem C13_closure_sentinel_after_dropped_element :
    (((New (some (listIterator sample1234))).Pipe (some (traceOp skip1CloseAt3Op))).Iterate
        (traceVisit okVisit) ((), [])).1 = none ∧
    closureArgs (((New (some (listIterator sample1234))).Pipe
        (some (traceOp skip1CloseAt3Op))).Iterate (traceVisit okVisit) ((), [])).2.2
      = sample1234.take 3 ∧
    visitArgs (((New (some (listIterator sample1234))).Pipe
        (some (traceOp skip1CloseAt3Op))).Iterate (traceVisit okVisit) ((), [])).2.2
      = [none, some (Environment.mk (some 2) none)] := by
  refine ⟨?_, ?_, ?_⟩ <;> rfl

/-- C14: for every list backed source `xs` and operators `op1`, `op2` whose closures
compute `f1` and `f2`, never fail and never return nil, iterating
`New(xs).Pipe(op1).Pipe(op2)` with a `visit` that never fails returns nil and invokes
`visit` exactly once per element, in order, with the arguments `f2(f1(e))`.  `Pipe` builds
a new stream whose source is the receiver and whose operator is the given one, and the
receiver stays what it was: iterated from any state, before or after, it hands `visit`
the arguments `f1(e)`. -/
theorem C14_operators_apply_in_Pipe_order (xs : List (Option (Environment V)))
    (op1 op2 : Operator σ V) (f1 f2 : Option (Environment V) → Option (Environment V))
    (visit : Callback σ V) (w : σ)
    (h1 : ∀ w0 env w1, ((op1 w0).1 env w1).1 = (f1 env, none) ∧ f1 env ≠ none)
    (h2 : ∀ w0 env w1, ((op2 w0).1 env w1).1 = (f2 env, none) ∧ f2 env ≠ none)
    (hvisit : ∀ env s, (visit env s).1 = none) :
    ((((New (some (listIterator xs))).Pipe (some (traceOp op1))).Pipe
        (some (traceOp op2))).Iterate (traceVisit visit) (w, [])).1 = none ∧
    visitArgs ((((New (some (listIterator xs))).Pipe (some (traceOp op1))).Pipe
        (some (traceOp op2))).Iterate (traceVisit visit) (w, [])).2.2
      = xs.map (fun e => f2 (f1 e)) ∧
    ((New (some (listIterator xs))).Pipe (some (traceOp op1))).Pipe (some (traceOp op2))
      = { it := some ((New (some (listIterator xs))).Pipe (some (traceOp op1))).Iterate,
          op := some (traceOp op2) } ∧
    ∀ w1 : σ,
      (((New (some (listIterator xs))).Pipe (some (traceOp op1))).Iterate
          (traceVisit visit) (w1, [])).1 = none ∧
      visitArgs (((New (some (listIterator xs))).Pipe (some (traceOp op1))).Iterate
          (traceVisit visit) (w1, [])).2.2 = xs.map f1 := by
  have hp1 : Produces ((New (some (listIterator xs))).Pipe (some (traceOp op1))).Iterate
      (xs.map f1) :=
    produces_piped _ xs (produces_list xs) op1 f1 (fun w0 env w1 => (h1 w0 env w1).1)
  have hp2 : Produces (((New (some (listIterator xs))).Pipe (some (traceOp op1))).Pipe
      (some (traceOp op2))).Iterate ((xs.map f1).map f2) :=
    produces_piped _ _ hp1 op2 f2 (fun w0 env w1 => (h2 w0 env w1).1)
  obtain ⟨k1, evs, k2, k3⟩ := hp2 _ _ (emits_traceVisit visit hvisit) w []
  refine ⟨k1, ?_, rfl, ?_⟩
  · rw [k2, List.nil_append, k3]
    simp [List.map_map]
  · intro w1
    obtain ⟨j1, evs1, j2, j3⟩ := hp1 _ _ (emits_traceVisit visit hvisit) w1 []
    refine ⟨j1, ?_⟩
    rw [j2, List.nil_append, j3]
    simp

theorem bump_ne_none (k : Nat) (env : Option (Environment Nat)) : bump k env ≠ none := by
  unfold bump
  split <;> simp

theorem scale_ne_none (k : Nat) (env : Option (Environment Nat)) : scale k env ≠ none := by
  unfold scale
  split <;> simp

/-- Witness of C14: adding 1, then doubling, over the source 1, 2, 3: `visit` receives 4, 6
and 8 (doubling first would give 3, 5 and 7). -/
theorem C14_operators_apply_in_Pipe_order_witness :
    ((((New (some (listIterator sample123))).Pipe (some (traceOp (bumpOp 1)))).Pipe
        (some (traceOp (scaleOp 2)))).Iterate (traceVisit okVisit) ((), [])).1 = none ∧
    visitArgs ((((New (some (listIterator sample123))).Pipe (some (traceOp (bumpOp 1)))).Pipe
        (some (traceOp (scaleOp 2)))).Iterate (traceVisit okVisit) ((), [])).2.2
      = [some (Environment.mk (some 4) none), some (Environment.mk (some 6) none),
         some (Environment.mk (some 8) none)] :=
  have h := C14_operators_apply_in_Pipe_order sample123 (bumpOp 1) (scaleOp 2) (bump 1)
    (scale 2) okVisit () (fun _ env _ => ⟨rfl, bump_ne_none 1 env⟩)
    (fun _ env _ => ⟨rfl, scale_ne_none 2 env⟩) (fun _ _ => rfl)
  ⟨h.1, h.2.1⟩

/-- C15: each call of the factory of `Map` declares a new slot, zero valued; for every
content of the store before a call of the closure (so for every prior content of the
slot) and every input environment `e`: when the expression evaluates to `v` the closure
returns the environment with current value `v` and `Outer` `e`, which is also exactly
what the slot holds afterwards, and nothing else in the state changes; when the evaluation
fails the closure returns a nil environment and the error and leaves the state, the slot
included, as it was. -/
theorem C15_Map_overwrites_its_slot (E : Expr V) (w w1 : World σ (Environment V))
    (e : Option (Environment V)) :
    ((Map E : Operator (World σ (Environment V)) V) w).2 = w.alloc Environment.zero ∧
    (∀ v : V, E.Eval e = (v, none) →
      (((Map E : Operator (World σ (Environment V)) V) w).1 e w1).1
        = (some (Environment.mk (some v) e), none) ∧
      (((Map E : Operator (World σ (Environment V)) V) w).1 e w1).2.vars w.next
        = Environment.mk (some v) e ∧
      (∀ a, a ≠ w.next →
        (((Map E : Operator (World σ (Environment V)) V) w).1 e w1).2.vars a = w1.vars a) ∧
      (((Map E : Operator (World σ (Environment V)) V) w).1 e w1).2.ext = w1.ext ∧
      (((Map E : Operator (World σ (Environment V)) V) w).1 e w1).2.next = w1.next) ∧
    (∀ (v : V) (err : GoError), E.Eval e = (v, some err) →
      ((Map E : Operator (World σ (Environment V)) V) w).1 e w1 = ((none, some err), w1)) := by
  refine ⟨rfl, ?_, ?_⟩
  · intro v hv
    simp only [Map, MapOperator.Operator, hv, World.modify, Environment.SetCurrentValue,
      Environment.setOuter, Environment.current, Function.update_same, Function.update_idem]
    refine ⟨trivial, trivial, ?_, trivial, trivial⟩
    intro a ha
    exact Function.update_noteq ha _ _
  · intro v err hv
    simp only [Map, MapOperator.Operator, hv]

/-- Witness of C15: a slot that holds the environment of a previous element is overwritten
by the value for the new element, and a failing expression leaves it alone. -/
theorem C15_Map_overwrites_its_slot_witness :
    (((Map tenTimes : Operator (World Unit (Environment Nat)) Nat) emptyWorld).1
        (some (Environment.mk (some 2) none))
        (emptyWorld.alloc (Environment.mk (some 10) (some (Environment.mk (some 1) none))))).2.vars
          emptyWorld.next
      = Environment.mk (some 20) (some (Environment.mk (some 2) none)) ∧
    ((Map failingExpr : Operator (World Unit (Environment Nat)) Nat) emptyWorld).1
        (some (Environment.mk (some 2) none))
        (emptyWorld.alloc (Environment.mk (some 10) (some (Environment.mk (some 1) none))))
      = ((none, some (GoError.other "no such field")),
          emptyWorld.alloc (Environment.mk (some 10) (some (Environment.mk (some 1) none)))) :=
  ⟨((C15_Map_overwrites_its_slot tenTimes emptyWorld
      (emptyWorld.alloc (Environment.mk (some 10) (some (Environment.mk (some 1) none))))
      (some (Environment.mk (some 2) none))).2.1 20 rfl).2.1,
   (C15_Map_overwrites_its_slot failingExpr emptyWorld
      (emptyWorld.alloc (Environment.mk (some 10) (some (Environment.mk (some 1) none))))
      (some (Environment.mk (some 2) none))).2.2 0 (GoError.other "no such field") rfl⟩

/-- C16: for every receiver `s`, every non-nil operator `op`, every callback and state,
with `r` the error returned by the `Iterate` of the source `s` called with the wrapped
callback, `s.Pipe(op).Iterate` returns nil when `r` is nil or `ErrStreamClosed` and `r`
itself otherwise, and leaves the state that the source left; so a source that returns
`ErrStreamClosed` on its own account, without calling its callback, yields nil. -/
theorem C16_Iterate_result_is_a_function_of_source_result (s : Stream ω V) (op : Operator ω V)
    (fn : Callback ω V) (w : ω) :
    (((s.Iterate (Stream.Iterate.func1 (op w).1 fn) (op w).2).1 = none ∨
        (s.Iterate (Stream.Iterate.func1 (op w).1 fn) (op w).2).1
          = some GoError.ErrStreamClosed) →
      ((s.Pipe (some op)).Iterate fn w).1 = none) ∧
    ((s.Iterate (Stream.Iterate.func1 (op w).1 fn) (op w).2).1 ≠ none →
      (s.Iterate (Stream.Iterate.func1 (op w).1 fn) (op w).2).1
          ≠ some GoError.ErrStreamClosed →
      ((s.Pipe (some op)).Iterate fn w).1
        = (s.Iterate (Stream.Iterate.func1 (op w).1 fn) (op w).2).1) ∧
    ((s.Pipe (some op)).Iterate fn w).2
      = (s.Iterate (Stream.Iterate.func1 (op w).1 fn) (op w).2).2 ∧
    ((New (some (fun _ u => (some GoError.ErrStreamClosed, u)))).Pipe (some op)).Iterate fn w
      = (none, (op w).2) := by
  refine ⟨?_, ?_, ?_, ?_⟩
  · intro h
    rw [Iterate_Pipe]
    rcases h with h | h
    · simp [h]
    · simp [h]
  · intro _ h2
    rw [Iterate_Pipe]
    simp [h2]
  · rw [Iterate_Pipe]
  · rw [Iterate_Pipe]
    rfl

/-- Witness of C16: a source that returns another error on its own account; `Iterate`
returns that error. -/
theorem C16_Iterate_result_is_a_function_of_source_result_witness :
    (((New (some boomSource)).Pipe (some passOp)).Iterate okVisit ()).1
      = ((New (some boomSource)).Iterate
          (Stream.Iterate.func1 (passOp ()).1 okVisit) (passOp ()).2).1 :=
  (C16_Iterate_result_is_a_function_of_source_result
    (New (some boomSource)) passOp okVisit ()).2.1
    (by simp [Iterate_New, boomSource]) (by simp [Iterate_New, boomSource])

/-- C17: the zero value of `Stream` and `New(nil)` have no source; their `Iterate` returns
nil and leaves the state untouched, so the callback is not invoked; and that stream piped
through any operator returns nil after the one factory call: the log gains the factory
event and nothing else, neither a closure call nor a `visit` call. -/
theorem C17_no_source_is_a_no_op (op : Operator σ V) (fn : Callback ω V) (u : ω)
    (visit : Callback σ V) (w : σ) (l : List (Event V)) :
    (Stream.mk none none : Stream ω V).Iterate fn u = (none, u) ∧
    (New (none : Option (Iterator ω V))).Iterate fn u = (none, u) ∧
    ((New none).Pipe (some (traceOp op))).Iterate (traceVisit visit) (w, l)
      = (none, ((op w).2, l ++ [Event.factory l.length])) ∧
    ((Stream.mk none none).Pipe (some (traceOp op))).Iterate (traceVisit visit) (w, l)
      = (none, ((op w).2, l ++ [Event.factory l.length])) := by
  refine ⟨rfl, rfl, ?_, ?_⟩
  · rw [Iterate_Pipe]; rfl
  · rw [Iterate_Pipe]; rfl

end Claims2

end stream

/-! # Theorems about package `database` -/

namespace database

section Catalog

theorem findTable_rename_old (tables : List TableInfo) (oldName newName : String)
    (hne : newName ≠ oldName) :
    (tables.map (fun ti =>
        if ti.tableName = oldName then { ti with tableName := newName } else ti)).find?
      (fun ti => ti.tableName = oldName) = none := by
  rw [List.find?_eq_none]
  intro ti hti
  obtain ⟨t0, _, rfl⟩ := List.mem_map.1 hti
  by_cases h : t0.tableName = oldName
  · simp [h, hne]
  · simp [h]

theorem findTable_rename_new (oldName newName : String) :
    ∀ (tables : List TableInfo) (ti : TableInfo),
      tables.find? (fun t => t.tableName = oldName) = some ti →
      tables.find? (fun t => t.tableName = newName) = none →
      (tables.map (fun t =>
          if t.tableName = oldName then { t with tableName := newName } else t)).find?
        (fun t => t.tableName = newName) = some { ti with tableName := newName } := by
  intro tables
  induction tables with
  | nil => intro ti h; simp at h
  | cons t tables ih =>
    intro ti hold hnew
    have hnt : t.tableName ≠ newName := by
      intro hc
      simp [List.find?_cons, hc] at hnew
    have hnew1 : tables.find? (fun t => t.tableName = newName) = none := by
      simpa [List.find?_cons, hnt] using hnew
    by_cases h : t.tableName = oldName
    · have hti : t = ti := by simpa [List.find?_cons, h] using hold
      subst hti
      simp [List.find?_cons, h]
    · have hold1 : tables.find? (fun t => t.tableName = oldName) = some ti := by
        simpa [List.find?_cons, h] using hold
      simpa [List.find?_cons, h, hnt] using ih ti hold1 hnew1

/-- C9: `RenameTable(old, new)` on an existing table `old` succeeds when `new` does not
name a table yet; after a successful call `GetTable(old)` fails with `ErrTableNotFound`,
`GetTable(new)` succeeds with the field constraints that `old` had, the number of indexes
is unchanged and each index keeps its place, its `IndexName`, `Path` and `Unique`, its
`TableName` being `new` if it was `old`.  `RenameTable` on an absent table fails with
`ErrTableNotFound` and changes nothing. -/
theorem C9_RenameTable_moves_table_and_indexes (tx : Transaction) (oldName newName : String) :
    (∀ ti : TableInfo, tx.GetTable oldName = .ok ti → tx.findTable newName = none →
      (tx.RenameTable oldName newName).1 = none) ∧
    (∀ ti : TableInfo, tx.GetTable oldName = .ok ti →
      (tx.RenameTable oldName newName).1 = none →
      (tx.RenameTable oldName newName).2.GetTable oldName = .error GoError.ErrTableNotFound ∧
      (tx.RenameTable oldName newName).2.GetTable newName
        = .ok { tableName := newName, FieldConstraints := ti.FieldConstraints } ∧
      (tx.RenameTable oldName newName).2.ListIndexes.length = tx.ListIndexes.length ∧
      ∀ (i : Nat) (h : i < tx.ListIndexes.length),
        ∃ idx : IndexConfig,
          (tx.RenameTable oldName newName).2.ListIndexes[i]? = some idx ∧
          idx.IndexName = (tx.ListIndexes.get ⟨i, h⟩).IndexName ∧
          idx.Path = (tx.ListIndexes.get ⟨i, h⟩).Path ∧
          idx.Unique = (tx.ListIndexes.get ⟨i, h⟩).Unique ∧
          ((tx.ListIndexes.get ⟨i, h⟩).TableName = oldName → idx.TableName = newName)) ∧
    (tx.findTable oldName = none →
      tx.RenameTable oldName newName = (some GoError.ErrTableNotFound, tx)) := by
  have hfind_of : ∀ ti : TableInfo, tx.GetTable oldName = .ok ti →
      tx.findTable oldName = some ti := by
    intro ti hget
    unfold Transaction.GetTable at hget
    split at hget
    · cases hget
    · next t ht => cases hget; exact ht
  refine ⟨?_, ?_, ?_⟩
  · intro ti hget hnew
    simp [Transaction.RenameTable, hfind_of ti hget, hnew]
  · intro ti hget hok
    have hfind := hfind_of ti hget
    have hnew : tx.findTable newName = none := by
      cases hn : tx.findTable newName with
      | none => rfl
      | some t =>
        simp [Transaction.RenameTable, hfind, hn] at hok
    have hne : newName ≠ oldName := by
      intro hc
      rw [hc, hfind] at hnew
      cases hnew
    have hren : tx.RenameTable oldName newName =
        (none,
          { tables := tx.tables.map (fun ti =>
              if ti.tableName = oldName then { ti with tableName := newName } else ti),
            indexes := tx.indexes.map (fun idx =>
              if idx.TableName = oldName then { idx with TableName := newName } else idx) }) := by
      simp [Transaction.RenameTable, hfind, hnew]
    rw [hren]
    refine ⟨?_, ?_, ?_, ?_⟩
    · simp only [Transaction.GetTable, Transaction.findTable]
      rw [findTable_rename_old tx.tables oldName newName hne]
    · simp only [Transaction.GetTable, Transaction.findTable]
      rw [findTable_rename_new oldName newName tx.tables ti hfind hnew]
    · simp [Transaction.ListIndexes]
    · intro i h
      simp only [Transaction.ListIndexes] at h ⊢
      refine ⟨if (tx.indexes.get ⟨i, h⟩).TableName = oldName then
          { tx.indexes.get ⟨i, h⟩ with TableName := newName } else tx.indexes.get ⟨i, h⟩,
        ?_, ?_, ?_, ?_, ?_⟩
      · simp [List.getElem?_map, List.getElem?_eq_getElem h]
      · split <;> rfl
      · split <;> rfl
      · split <;> rfl
      · intro hold
        have hold1 : tx.indexes[i].TableName = oldName := hold
        simp [hold1]
  · intro habs
    simp only [Transaction.RenameTable, habs]

/-- Witness of C9: the rename of `TestTxTable/Rename`, `foo` to `zoo`, with its two
indexes. -/
theorem C9_RenameTable_moves_table_and_indexes_witness :
    (sampleTx.RenameTable "foo" "zoo").1 = none ∧
    (sampleTx.RenameTable "foo" "zoo").2.GetTable "foo" = .error GoError.ErrTableNotFound ∧
    (sampleTx.RenameTable "foo" "zoo").2.GetTable "zoo"
      = .ok { tableName := "zoo", FieldConstraints := sampleConstraints } ∧
    (sampleTx.RenameTable "foo" "zoo").2.ListIndexes.length = sampleTx.ListIndexes.length :=
  have h0 := (C9_RenameTable_moves_table_and_indexes sampleTx "foo" "zoo").1
    { tableName := "foo", FieldConstraints := sampleConstraints } rfl rfl
  have h := (C9_RenameTable_moves_table_and_indexes sampleTx "foo" "zoo").2.1
    { tableName := "foo", FieldConstraints := sampleConstraints } rfl h0
  ⟨h0, h.1, h.2.1, h.2.2.1⟩

/-- C10: for every table name that does not begin with the reserved characters `__genji_`
and is not yet registered, `CreateTable` succeeds and a second `CreateTable` of that name
fails with `ErrTableAlreadyExists`; for every name that begins with the reserved
characters, `CreateTable` fails and leaves the catalog unchanged. -/
theorem C10_CreateTable_twice_and_reserved (tx : Transaction) (name : String)
    (info info2 : Option TableInfo) :
    (isReserved name = false → tx.findTable name = none →
      (tx.CreateTable name info).1 = none ∧
      ((tx.CreateTable name info).2.CreateTable name info2).1
        = some GoError.ErrTableAlreadyExists) ∧
    (isReserved name = true →
      (tx.CreateTable name info).1 ≠ none ∧ (tx.CreateTable name info).2 = tx) := by
  constructor
  · intro hres habs
    have h1 : tx.CreateTable name info =
        (none, { tx with tables := tx.tables ++
          [{ tableName := name, FieldConstraints := constraintsOf info }] }) := by
      simp [Transaction.CreateTable, habs, hres]
    rw [h1]
    refine ⟨rfl, ?_⟩
    have h2 : (Transaction.findTable { tx with tables := tx.tables ++
          [{ tableName := name, FieldConstraints := constraintsOf info }] } name).isSome
        = true := by
      unfold Transaction.findTable at habs ⊢
      simp [List.find?_append, habs]
    simp only [Transaction.CreateTable, h2, if_true]
  · intro hres
    unfold Transaction.CreateTable
    split
    · exact ⟨by simp, rfl⟩
    · simp [hres]

/-- Witness of C10: `test` twice on a new database, then `__genji_foo`, as in
`TestTxTable/Create`. -/
theorem C10_CreateTable_twice_and_reserved_witness :
    ((emptyTx.CreateTable "test" none).1 = none ∧
      ((emptyTx.CreateTable "test" none).2.CreateTable "test" none).1
        = some GoError.ErrTableAlreadyExists) ∧
    ((emptyTx.CreateTable "__genji_foo" none).1 ≠ none ∧
      (emptyTx.CreateTable "__genji_foo" none).2 = emptyTx) :=
  ⟨(C10_CreateTable_twice_and_reserved emptyTx "test" none none).1 (by decide) (by decide),
   (C10_CreateTable_twice_and_reserved emptyTx "__genji_foo" none none).2 (by decide)⟩

end Catalog

section Schema

theorem find_map_same_name (f : TableInfo → TableInfo)
    (hf : ∀ t, (f t).tableName = t.tableName) (name : String) :
    ∀ l : List TableInfo,
      (l.map f).find? (fun t => t.tableName = name)
        = (l.find? (fun t => t.tableName = name)).map f := by
  intro l
  induction l with
  | nil => rfl
  | cons t l ih =>
    by_cases h : t.tableName = name
    · simp [List.find?_cons, hf, h]
    · simp [List.find?_cons, hf, h, ih]

theorem getTable_eq_ok {tx : Transaction} {name : String} {ti : TableInfo}
    (h : tx.GetTable name = .ok ti) : tx.findTable name = some ti := by
  unfold Transaction.GetTable at h
  split at h
  · cases h
  · next t ht => cases h; exact ht

theorem findTable_name {tx : Transaction} {name : String} {ti : TableInfo}
    (h : tx.findTable name = some ti) : ti.tableName = name := by
  have := List.find?_some h
  simpa using this

/-- The catalog after a successful `AddField`. -/
theorem findTable_after_append (tx : Transaction) (name : String) (ti : TableInfo)
    (c : FieldConstraint) (h : tx.findTable name = some ti) :
    Transaction.findTable
        { tx with tables := tx.tables.map (fun t =>
            if t.tableName = name then
              { t with FieldConstraints := t.FieldConstraints ++ [c] }
            else t) } name
      = some { ti with FieldConstraints := ti.FieldConstraints ++ [c] } := by
  unfold Transaction.findTable at h ⊢
  simp only
  rw [find_map_same_name _ (fun t => by split <;> rfl) name tx.tables, h]
  have hn : ti.tableName = name := findTable_name h
  simp [hn]

/-- C11: `AddField(table, c)` fails with `ErrTableNotFound` if the table is absent; on an
existing table it fails if a constraint for the path of `c` exists, fails if `c` is a
primary key and the table has one already, and every failing call leaves the catalog, so
the field constraints, unchanged; in the remaining case it succeeds and `c` is appended,
so it is contained in the field constraints of the table; and the invariant (at most one
primary key, no duplicated path) of the table is kept by every call. -/
theorem C11_AddField_keeps_schema_invariant (tx : Transaction) (tableName : String)
    (c : FieldConstraint) :
    (tx.findTable tableName = none →
      tx.AddField tableName c = (some GoError.ErrTableNotFound, tx)) ∧
    (∀ ti : TableInfo, tx.GetTable tableName = .ok ti →
      ((∃ c0 ∈ ti.FieldConstraints, c0.Path = c.Path) → (tx.AddField tableName c).1 ≠ none) ∧
      (c.IsPrimaryKey = true → (∃ c0 ∈ ti.FieldConstraints, c0.IsPrimaryKey = true) →
        (tx.AddField tableName c).1 ≠ none) ∧
      ((tx.AddField tableName c).1 ≠ none → (tx.AddField tableName c).2 = tx) ∧
      ((∀ c0 ∈ ti.FieldConstraints, c0.Path ≠ c.Path) →
        (c.IsPrimaryKey = true → ∀ c0 ∈ ti.FieldConstraints, c0.IsPrimaryKey = false) →
        (tx.AddField tableName c).1 = none ∧
        (tx.AddField tableName c).2.GetTable tableName
          = .ok { ti with FieldConstraints := ti.FieldConstraints ++ [c] } ∧
        c ∈ ti.FieldConstraints ++ [c]) ∧
      (ti.valid → ∀ ti1 : TableInfo,
        (tx.AddField tableName c).2.GetTable tableName = .ok ti1 → ti1.valid)) := by
  constructor
  · intro h
    simp only [Transaction.AddField, h]
  · intro ti hget
    have hfind := getTable_eq_ok hget
    have hdef : tx.AddField tableName c =
        if ti.FieldConstraints.any (fun c0 => c0.Path = c.Path) then
          (some (GoError.other "a constraint already exists for this path"), tx)
        else if c.IsPrimaryKey && ti.FieldConstraints.any (fun c0 => c0.IsPrimaryKey) then
          (some (GoError.other "the table already has a primary key"), tx)
        else
          (none,
            { tx with tables := tx.tables.map (fun t =>
                if t.tableName = tableName then
                  { t with FieldConstraints := t.FieldConstraints ++ [c] }
                else t) }) := by
      simp only [Transaction.AddField, hfind]
    by_cases hp : ti.FieldConstraints.any (fun c0 => c0.Path = c.Path) = true
    · have hres : tx.AddField tableName c
          = (some (GoError.other "a constraint already exists for this path"), tx) := by
        rw [hdef, if_pos hp]
      have hex : ∃ c0 ∈ ti.FieldConstraints, c0.Path = c.Path := by
        simpa using hp
      rw [hres]
      refine ⟨fun _ => by simp, fun _ _ => by simp, fun _ => rfl, ?_, ?_⟩
      · intro hno
        obtain ⟨c0, hc0, hc1⟩ := hex
        exact absurd hc1 (hno c0 hc0)
      · intro hv ti1 h1
        rw [hget] at h1
        cases h1
        exact hv
    · by_cases hq : (c.IsPrimaryKey && ti.FieldConstraints.any (fun c0 => c0.IsPrimaryKey))
          = true
      · have hres : tx.AddField tableName c
            = (some (GoError.other "the table already has a primary key"), tx) := by
          rw [hdef, if_neg hp, if_pos hq]
        have hq1 : c.IsPrimaryKey = true ∧ ∃ c0 ∈ ti.FieldConstraints, c0.IsPrimaryKey = true := by
          simpa using hq
        rw [hres]
        refine ⟨fun _ => by simp, fun _ _ => by simp, fun _ => rfl, ?_, ?_⟩
        · intro _ hno
          obtain ⟨c0, hc0, hc1⟩ := hq1.2
          have := hno hq1.1 c0 hc0
          rw [hc1] at this
          cases this
        · intro hv ti1 h1
          rw [hget] at h1
          cases h1
          exact hv
      · have hres : tx.AddField tableName c =
            (none,
              { tx with tables := tx.tables.map (fun t =>
                  if t.tableName = tableName then
                    { t with FieldConstraints := t.FieldConstraints ++ [c] }
                  else t) }) := by
          rw [hdef, if_neg hp, if_neg hq]
        have hpath : ∀ c0 ∈ ti.FieldConstraints, c0.Path ≠ c.Path := by
          simpa using hp
        have hpk : c.IsPrimaryKey = true → ∀ c0 ∈ ti.FieldConstraints, c0.IsPrimaryKey = false := by
          intro hc c0 hc0
          have : ¬ (c.IsPrimaryKey = true ∧ ∃ c0 ∈ ti.FieldConstraints, c0.IsPrimaryKey = true) := by
            simpa using hq
          cases hb : c0.IsPrimaryKey with
          | false => rfl
          | true => exact absurd ⟨hc, c0, hc0, hb⟩ this
        have hafter : (tx.AddField tableName c).2.GetTable tableName
            = .ok { ti with FieldConstraints := ti.FieldConstraints ++ [c] } := by
          rw [hres]
          simp only [Transaction.GetTable]
          rw [findTable_after_append tx tableName ti c hfind]
        refine ⟨?_, ?_, ?_, ?_, ?_⟩
        · intro hex
          obtain ⟨c0, hc0, hc1⟩ := hex
          exact absurd hc1 (hpath c0 hc0)
        · intro hc hex
          obtain ⟨c0, hc0, hc1⟩ := hex
          have := hpk hc c0 hc0
          rw [hc1] at this
          cases this
        · intro hne
          rw [hres] at hne
          exact absurd rfl hne
        · intro _ _
          exact ⟨by rw [hres], hafter, by simp⟩
        · intro hv ti1 h1
          rw [hafter] at h1
          cases h1
          obtain ⟨hv1, hv2⟩ := hv
          constructor
          · simp only [List.filter_append, List.length_append]
            cases hc : c.IsPrimaryKey with
            | false => simpa [List.filter, hc] using hv1
            | true =>
              have hnone : ti.FieldConstraints.filter (fun c0 => c0.IsPrimaryKey) = [] := by
                rw [List.filter_eq_nil_iff]
                intro c0 hc0
                simp [hpk hc c0 hc0]
              simp [hnone, List.filter, hc]
          · rw [List.map_append, List.nodup_append]
            refine ⟨hv2, by simp, ?_⟩
            intro a ha hb
            simp only [List.map_cons, List.map_nil, List.mem_singleton] at hb
            obtain ⟨c0, hc0, hc1⟩ := List.mem_map.1 ha
            exact hpath c0 hc0 (hc1.trans hb)

/-- Witness of C11: the calls of `TestTxTable/Add field` on the table `foo`: a new field is
appended, a second primary key is refused, and the table `bar` does not exist. -/
theorem C11_AddField_keeps_schema_invariant_witness :
    sampleTx.AddField "bar" lastNameField = (some GoError.ErrTableNotFound, sampleTx) ∧
    ((sampleTx.AddField "foo" lastNameField).1 = none ∧
      (sampleTx.AddField "foo" lastNameField).2.GetTable "foo"
        = .ok { tableName := "foo", FieldConstraints := sampleConstraints ++ [lastNameField] } ∧
      lastNameField ∈ sampleConstraints ++ [lastNameField]) ∧
    (sampleTx.AddField "foo" foobarKeyField).1 ≠ none :=
  ⟨(C11_AddField_keeps_schema_invariant sampleTx "bar" lastNameField).1 rfl,
   ((C11_AddField_keeps_schema_invariant sampleTx "foo" lastNameField).2
      { tableName := "foo", FieldConstraints := sampleConstraints } rfl).2.2.2.1
      (by decide) (by decide),
   ((C11_AddField_keeps_schema_invariant sampleTx "foo" foobarKeyField).2
      { tableName := "foo", FieldConstraints := sampleConstraints } rfl).2.1
      rfl (by decide)⟩

end Schema

section ReIndex

variable {K Val Enc : Type} [LinearOrder Enc]

theorem placeEntry_perm (e : Enc × K) :
    ∀ l : List (Enc × K), (placeEntry e l).Perm (e :: l) := by
  intro l
  induction l with
  | nil => exact List.Perm.refl _
  | cons x rest ih =>
    unfold placeEntry
    split
    · exact List.Perm.refl _
    · exact (List.Perm.cons x ih).trans (List.Perm.swap e x rest)

theorem placeEntry_sorted (e : Enc × K) :
    ∀ l : List (Enc × K), l.Pairwise (fun a b => a.1 ≤ b.1) →
      (placeEntry e l).Pairwise (fun a b => a.1 ≤ b.1) := by
  intro l
  induction l with
  | nil => intro _; simp [placeEntry]
  | cons x rest ih =>
    intro h
    obtain ⟨h1, h2⟩ := List.pairwise_cons.1 h
    unfold placeEntry
    split
    · next hlt =>
      refine List.pairwise_cons.2 ⟨?_, h⟩
      intro y hy
      rcases List.mem_cons.1 hy with rfl | hy
      · exact le_of_lt hlt
      · exact le_trans (le_of_lt hlt) (h1 y hy)
    · next hge =>
      refine List.pairwise_cons.2 ⟨?_, ih h2⟩
      intro y hy
      rcases List.mem_cons.1 ((placeEntry_perm e rest).mem_iff.1 hy) with rfl | hy
      · exact not_lt.1 hge
      · exact h1 y hy

/-- An accepted insertion places the entry; in a unique index its encoded value is new. -/
theorem insertEntry_some {unique : Bool} {e : Enc × K} {idx idx1 : List (Enc × K)}
    (h : insertEntry unique e idx = some idx1) :
    idx1 = placeEntry e idx ∧ (unique = true → ∀ x ∈ idx, x.1 ≠ e.1) := by
  unfold insertEntry at h
  split at h
  · cases h
  · next hc =>
    cases h
    refine ⟨rfl, ?_⟩
    intro hu x hx hxe
    apply hc
    rw [hu, Bool.true_and, List.any_eq_true]
    exact ⟨x, hx, by simpa using hxe⟩

/-- An insertion is accepted if the index is not unique or the encoded value is new. -/
theorem insertEntry_accepts (unique : Bool) (e : Enc × K) (idx : List (Enc × K))
    (h : unique = true → ∀ x ∈ idx, x.1 ≠ e.1) :
    insertEntry unique e idx = some (placeEntry e idx) := by
  unfold insertEntry
  split
  · next hc =>
    exfalso
    rw [Bool.and_eq_true, List.any_eq_true] at hc
    obtain ⟨hu, x, hx, hxe⟩ := hc
    exact h hu x hx (by simpa using hxe)
  · rfl

/-- A successful scan, from any sorted storage: the result is sorted and holds the entries
of the storage and one entry per document with a value at the path; in a unique index
the encoded values stay distinct. -/
theorem scan_sorted_perm (unique : Bool) (encode : Val → Enc) (path : String) :
    ∀ (docs : List (Document K Val)) (acc idx : List (Enc × K)),
      scanDocuments unique encode path docs acc = some idx →
      acc.Pairwise (fun a b => a.1 ≤ b.1) →
      idx.Pairwise (fun a b => a.1 ≤ b.1) ∧
      idx.Perm (acc ++ expectedEntries encode path docs) ∧
      (unique = true → (acc.map Prod.fst).Nodup → (idx.map Prod.fst).Nodup) := by
  intro docs
  induction docs with
  | nil =>
    intro acc idx h hs
    simp only [scanDocuments, Option.some.injEq] at h
    subst h
    exact ⟨hs, by simp [expectedEntries], fun _ hn => hn⟩
  | cons d docs ih =>
    intro acc idx h hs
    cases hd : d.get path with
    | none =>
      simp only [scanDocuments, hd] at h
      obtain ⟨k1, k2, k3⟩ := ih acc idx h hs
      exact ⟨k1, by simpa [expectedEntries, hd] using k2, k3⟩
    | some v =>
      simp only [scanDocuments, hd] at h
      cases hi : insertEntry unique (encode v, d.key) acc with
      | none => rw [hi] at h; cases h
      | some idx1 =>
        rw [hi] at h
        obtain ⟨hp, hu⟩ := insertEntry_some hi
        subst hp
        obtain ⟨k1, k2, k3⟩ := ih _ idx h (placeEntry_sorted _ acc hs)
        have h1 : expectedEntries encode path (d :: docs)
            = (encode v, d.key) :: expectedEntries encode path docs := by
          simp [expectedEntries, hd]
        refine ⟨k1, ?_, ?_⟩
        · rw [h1]
          exact k2.trans (((placeEntry_perm (encode v, d.key) acc).append_right _).trans
            (List.perm_middle.symm))
        · intro hq hn
          apply k3 hq
          have hperm := (placeEntry_perm (encode v, d.key) acc).map Prod.fst
          rw [hperm.nodup_iff, List.map_cons, List.nodup_cons]
          refine ⟨?_, hn⟩
          intro hmem
          obtain ⟨x, hx, hxe⟩ := List.mem_map.1 hmem
          exact hu hq x hx hxe

/-- The scan succeeds if the index is not unique, or if the encoded values of the documents
are distinct from one another and from those in the storage. -/
theorem scan_succeeds (unique : Bool) (encode : Val → Enc) (path : String) :
    ∀ (docs : List (Document K Val)) (acc : List (Enc × K)),
      (unique = true →
        ((expectedEntries encode path docs).map Prod.fst).Nodup ∧
        ∀ e ∈ expectedEntries encode path docs, ∀ x ∈ acc, x.1 ≠ e.1) →
      ∃ idx, scanDocuments unique encode path docs acc = some idx := by
  intro docs
  induction docs with
  | nil => intro acc _; exact ⟨acc, rfl⟩
  | cons d docs ih =>
    intro acc h
    cases hd : d.get path with
    | none =>
      simp only [scanDocuments, hd]
      apply ih
      intro hu
      have := h hu
      simpa [expectedEntries, hd] using this
    | some v =>
      have h1 : expectedEntries encode path (d :: docs)
          = (encode v, d.key) :: expectedEntries encode path docs := by
        simp [expectedEntries, hd]
      rw [h1] at h
      have hacc : insertEntry unique (encode v, d.key) acc
          = some (placeEntry (encode v, d.key) acc) := by
        apply insertEntry_accepts
        intro hu x hx
        exact (h hu).2 (encode v, d.key) (List.mem_cons_self _ _) x hx
      simp only [scanDocuments, hd, hacc]
      apply ih
      intro hu
      obtain ⟨hn, hdis⟩ := h hu
      rw [List.map_cons, List.nodup_cons] at hn
      refine ⟨hn.2, ?_⟩
      intro e he x hx
      rcases List.mem_cons.1 ((placeEntry_perm (encode v, d.key) acc).mem_iff.1 hx) with rfl | hx
      · intro hc
        exact hn.1 (List.mem_map.2 ⟨e, he, hc.symm⟩)
      · exact hdis e (List.mem_cons_of_mem _ he) x hx

theorem ascend_collect (pivot : Option Enc) :
    ∀ (l acc : List (Enc × K)), ascend pivot collect l acc = (none, acc ++ l) := by
  intro l
  induction l with
  | nil => intro acc; simp [ascend]
  | cons e rest ih =>
    intro acc
    simp only [ascend, collect]
    rw [ih]
    simp

/-- A traversal from the empty pivot with the recording callback yields all the entries,
in their stored order. -/
theorem ascend_all (entries : List (Enc × K)) :
    AscendGreaterOrEqual entries none collect [] = (none, entries) := by
  have h : entries.dropWhile (fun e =>
      match (none : Option Enc) with
      | none => false
      | some p => decide (e.1 < p)) = entries := by
    cases entries with
    | nil => rfl
    | cons e rest => simp [List.dropWhile]
  unfold AscendGreaterOrEqual
  rw [h, ascend_collect]
  simp

/-- C12: `ReIndex(name)` fails with `ErrIndexNotFound`, changing nothing, when no index has
that name.  On an existing index it succeeds whenever the index is not unique or the
documents have distinct encoded values at the path; and after every successful call an
ascending traversal of that index from the empty pivot succeeds and visits exactly one
entry per document of the target table that has a value at the index path (documents
without are skipped), each entry made of the canonical encoding of the value and the key
of the document, in ascending order of encoded value, so in increasing order of the
values, and with no encoded value twice in a unique index; the other indexes and the
documents are left alone.  A failed call changes nothing, and an index that was created
and not reindexed is empty. -/
theorem C12_ReIndex_rebuilds_index [LT Val] (tx : Transaction) (codec : Codec Val Enc)
    (data : EngineData K Val Enc) (name : String) :
    (tx.findIndex name = none →
      tx.ReIndex codec data name = (some GoError.ErrIndexNotFound, data)) ∧
    (∀ cfg : IndexConfig, tx.findIndex name = some cfg →
      (cfg.Unique = true →
        ((expectedEntries codec.encode cfg.Path (data.documents cfg.TableName)).map
          Prod.fst).Nodup) →
      (tx.ReIndex codec data name).1 = none) ∧
    (∀ cfg : IndexConfig, tx.findIndex name = some cfg →
      (tx.ReIndex codec data name).1 = none →
      (AscendGreaterOrEqual ((tx.ReIndex codec data name).2.indexData name) none
        collect []).1 = none ∧
      (AscendGreaterOrEqual ((tx.ReIndex codec data name).2.indexData name) none
        collect []).2.Perm
          (expectedEntries codec.encode cfg.Path (data.documents cfg.TableName)) ∧
      (AscendGreaterOrEqual ((tx.ReIndex codec data name).2.indexData name) none
        collect []).2.Pairwise (fun a b => a.1 ≤ b.1) ∧
      (∀ (i j : Nat) (v1 v2 : Val) (k1 k2 : K),
        (AscendGreaterOrEqual ((tx.ReIndex codec data name).2.indexData name) none
          collect []).2[i]? = some (codec.encode v1, k1) →
        (AscendGreaterOrEqual ((tx.ReIndex codec data name).2.indexData name) none
          collect []).2[j]? = some (codec.encode v2, k2) →
        v1 < v2 → i < j) ∧
      (cfg.Unique = true →
        ((AscendGreaterOrEqual ((tx.ReIndex codec data name).2.indexData name) none
          collect []).2.map Prod.fst).Nodup) ∧
      (∀ other : String, other ≠ name →
        (tx.ReIndex codec data name).2.indexData other = data.indexData other) ∧
      (tx.ReIndex codec data name).2.documents = data.documents) ∧
    ((tx.ReIndex codec data name).1 ≠ none → (tx.ReIndex codec data name).2 = data) ∧
    (∀ cfg : IndexConfig, (tx.CreateIndex data cfg).1 = none →
      AscendGreaterOrEqual ((tx.CreateIndex data cfg).2.2.indexData cfg.IndexName) none
        collect [] = (none, [])) := by
  refine ⟨?_, ?_, ?_, ?_, ?_⟩
  · intro h
    simp only [Transaction.ReIndex, h]
  · intro cfg hcfg hdistinct
    obtain ⟨idx, hidx⟩ := scan_succeeds cfg.Unique codec.encode cfg.Path
      (data.documents cfg.TableName) ([] : List (Enc × K))
      (fun hu => ⟨hdistinct hu, fun _ _ x hx => by cases hx⟩)
    simp only [Transaction.ReIndex, hcfg, buildIndex, hidx]
  · intro cfg hcfg hok
    cases hb : buildIndex cfg.Unique codec.encode cfg.Path (data.documents cfg.TableName) with
    | none =>
      simp [Transaction.ReIndex, hcfg, hb] at hok
    | some idx =>
      have hre : tx.ReIndex codec data name =
          (none, { data with indexData := (Function.update data.indexData name idx) }) := by
        simp only [Transaction.ReIndex, hcfg, hb]
      have hidx : (tx.ReIndex codec data name).2.indexData name = idx := by
        rw [hre]; simp
      obtain ⟨hs, hp, hu⟩ := scan_sorted_perm cfg.Unique codec.encode cfg.Path
        (data.documents cfg.TableName) [] idx hb List.Pairwise.nil
      rw [hidx, ascend_all]
      refine ⟨rfl, by simpa using hp, hs, ?_, fun hq => hu hq (by simp), ?_, by rw [hre]⟩
      · intro i j v1 v2 k1 k2 hi hj hlt
        by_contra hij
        have henc := codec.preservesOrder v1 v2 hlt
        obtain ⟨hi1, hi2⟩ := List.getElem?_eq_some_iff.1 hi
        obtain ⟨hj1, hj2⟩ := List.getElem?_eq_some_iff.1 hj
        rcases Nat.lt_or_ge j i with hji | hji
        · have := (List.pairwise_iff_getElem.1 hs) j i hj1 hi1 hji
          rw [hi2, hj2] at this
          exact absurd henc (not_lt.2 this)
        · have hij1 : i = j := by omega
          subst hij1
          rw [hi2] at hj2
          have := congrArg Prod.fst hj2
          simp only at this
          rw [this] at henc
          exact lt_irrefl _ henc
      · intro other hne
        rw [hre]
        exact Function.update_noteq hne _ _
  · intro hfail
    cases hcfg : tx.findIndex name with
    | none => simp only [Transaction.ReIndex, hcfg]
    | some cfg =>
      cases hb : buildIndex cfg.Unique codec.encode cfg.Path
          (data.documents cfg.TableName) with
      | none => simp only [Transaction.ReIndex, hcfg, hb]
      | some idx =>
        exfalso
        apply hfail
        simp only [Transaction.ReIndex, hcfg, hb]
  · intro cfg hok
    have hdata : (tx.CreateIndex data cfg).2.2.indexData cfg.IndexName = [] := by
      unfold Transaction.CreateIndex at hok ⊢
      split
      · next h => simp [h] at hok
      · split
        · next h1 h2 => simp [h1, h2] at hok
        · simp
    rw [hdata, ascend_all]

/-- Witness of C12: the index `a` of `TestTxReIndex` over documents inserted out of order,
one of them without the field: the traversal yields the three entries in ascending order;
`ReIndex` of an unknown index fails; and the rebuild of a unique index on `b`, a value
that two documents share, fails and changes nothing. -/
theorem C12_ReIndex_rebuilds_index_witness :
    reindexTx.ReIndex sampleCodec reindexData "foo"
      = (some GoError.ErrIndexNotFound, reindexData) ∧
    (reindexTx.ReIndex sampleCodec reindexData "a").1 = none ∧
    (AscendGreaterOrEqual ((reindexTx.ReIndex sampleCodec reindexData "a").2.indexData "a")
        none collect []).2.Perm [(5, 1), (1, 2), (3, 4)] ∧
    (AscendGreaterOrEqual ((reindexTx.ReIndex sampleCodec reindexData "a").2.indexData "a")
        none collect []).2.Pairwise (fun a b => a.1 ≤ b.1) ∧
    (uniqueTx.ReIndex sampleCodec reindexData "ub").2 = reindexData :=
  have h0 := (C12_ReIndex_rebuilds_index reindexTx sampleCodec reindexData "a").2.1
    { TableName := "test", IndexName := "a", Path := "a", Unique := false } rfl
    (fun hu => absurd hu (by decide))
  have h := (C12_ReIndex_rebuilds_index reindexTx sampleCodec reindexData "a").2.2.1
    { TableName := "test", IndexName := "a", Path := "a", Unique := false } rfl h0
  ⟨(C12_ReIndex_rebuilds_index reindexTx sampleCodec reindexData "foo").1 rfl,
   h0, h.2.1, h.2.2.1,
   (C12_ReIndex_rebuilds_index uniqueTx sampleCodec reindexData "ub").2.2.2.1 (by decide)⟩

end ReIndex
end database

end Genji
